import Mathlib

/-! # cursor-pops: argument parser and presentation update

A shallow embedding of the command-line parser of cursor-pops
(src/cursor_pops_args.cpp, duplicated in src/cursor_pops.cpp), of the relaunch
command built by wWinMain, and of the timer handler and UpdateWindowPosition of
src/cursor_pops_core.cpp (duplicated in src/cursor_pops.cpp).

Conventions of the embedding.

* A std::wstring is a list of characters.
* A thrown C++ exception is the value none of an Option; every try/catch of
  the source appears as a match on that Option.
* BYTE, DWORD, ULONGLONG and int are natural numbers or integers with the
  reduction modulo 2^8, 2^32 or 2^64 written out at every cast and operation.
* float and double are IEEE-754 binary32 and binary64 values, kept as an exact
  sign, odd mantissa and binary exponent; every arithmetic operation rounds to
  nearest, ties to even.
* The C and C++ library functions the source calls (iswxdigit, towupper,
  wcstoul, std::stoi, std::stof, std::stod, swprintf_s) are not part of the
  repository; they are transcribed from the C and C++ standards for the
  C locale and restricted to what the source uses.
-/

namespace CursorPops

/-! ## Characters and strings -/

/-- A wide string. -/
abbrev WString := List Char

/-- The double-quote character. -/
def dquote : Char := Char.ofNat 34

/-- The null character, which operator[] yields at index size(). -/
def nul : Char := Char.ofNat 0

/-- C library iswspace in the C locale: space, and the controls 9 to 13. -/
def iswspace (c : Char) : Bool :=
  c.toNat = 32 || (9 ≤ c.toNat && c.toNat ≤ 13)

/-- C library iswdigit: the ten ASCII digits. -/
def iswdigit (c : Char) : Bool :=
  48 ≤ c.toNat && c.toNat ≤ 57

/-- C library iswxdigit: ASCII digits, A to F and a to f. -/
def iswxdigit (c : Char) : Bool :=
  iswdigit c || (65 ≤ c.toNat && c.toNat ≤ 70) || (97 ≤ c.toNat && c.toNat ≤ 102)

/-- C library towupper on the ASCII range. -/
def towupper (c : Char) : Char :=
  if 97 ≤ c.toNat ∧ c.toNat ≤ 122 then Char.ofNat (c.toNat - 32) else c

/-- C library towlower on the ASCII range. -/
def towlower (c : Char) : Char :=
  if 65 ≤ c.toNat ∧ c.toNat ≤ 90 then Char.ofNat (c.toNat + 32) else c

/-- Value of a character as a digit in a base up to 36; 36 when it is none. -/
def digitVal (c : Char) : Nat :=
  if 48 ≤ c.toNat ∧ c.toNat ≤ 57 then c.toNat - 48
  else if 97 ≤ c.toNat ∧ c.toNat ≤ 122 then c.toNat - 87
  else if 65 ≤ c.toNat ∧ c.toNat ≤ 90 then c.toNat - 55
  else 36

/-- Index of the first occurrence of c in s, none standing for npos. -/
def indexOfChar (c : Char) : WString → Option Nat
  | [] => none
  | x :: xs => if x = c then some 0 else (indexOfChar c xs).map (· + 1)

/-- The call s.find(c, pos) of std::wstring. -/
def wfind (s : WString) (c : Char) (pos : Nat) : Option Nat :=
  (indexOfChar c (s.drop pos)).map (· + pos)

/-- The call s.substr(pos, n) of std::wstring, for pos within the string. -/
def substr (s : WString) (pos n : Nat) : WString :=
  (s.drop pos).take n

/-- The call s.substr(pos) of std::wstring, for pos within the string. -/
def substrFrom (s : WString) (pos : Nat) : WString :=
  s.drop pos

/-- Leading white space removed, as the strto* family does first. -/
def skipSpace (s : WString) : WString :=
  s.dropWhile iswspace

/-- An optional sign split off the front: true for a minus sign. -/
def splitSign : WString → Bool × WString
  | '-' :: t => (true, t)
  | '+' :: t => (false, t)
  | t => (false, t)

/-- Value of the longest prefix of digits of the given base, from acc. -/
def accumDigits (base : Nat) : WString → Nat → Nat
  | [], acc => acc
  | c :: cs, acc =>
    if digitVal c < base then accumDigits base cs (acc * base + digitVal c) else acc

/-- Number of leading digits of the given base. -/
def countDigits (base : Nat) : WString → Nat
  | [] => 0
  | c :: cs => if digitVal c < base then countDigits base cs + 1 else 0

/-- The string after its leading digits of the given base. -/
def dropDigits (base : Nat) : WString → WString
  | [] => []
  | c :: cs => if digitVal c < base then dropDigits base cs else c :: cs

/-! ## Integers: wcstoul and std::stoi -/

/-- C library wcstoul(s, nullptr, 16) with a 32-bit unsigned long: white space,
an optional sign, an optional 0x, hexadecimal digits; 0 when there is no digit,
ULONG_MAX on overflow. -/
def wcstoul16 (s : WString) : Nat :=
  let p := splitSign (skipSpace s)
  let body : WString :=
    match p.2 with
    | z :: x :: h :: t =>
      if z = '0' ∧ (x = 'x' ∨ x = 'X') ∧ digitVal h < 16 then h :: t else p.2
    | t => t
  let v := accumDigits 16 body 0
  if 2 ^ 32 ≤ v then 2 ^ 32 - 1
  else if p.1 then (2 ^ 32 - v) % 2 ^ 32 else v

/-- The call std::stoi(s): wcstol in base 10; none when it throws
invalid_argument (no digit) or out_of_range (outside a 32-bit int). -/
def stoi (s : WString) : Option Int :=
  let p := splitSign (skipSpace s)
  match p.2 with
  | [] => none
  | c :: _ =>
    if digitVal c < 10 then
      let v : Int := accumDigits 10 p.2 0
      let i : Int := if p.1 then -v else v
      if -(2 ^ 31) ≤ i ∧ i < 2 ^ 31 then some i else none
    else none

/-- The cast (BYTE)i of an int. -/
def byteOfInt (i : Int) : Nat :=
  (i % 256).toNat

/-! ## Colours -/

/-- struct Color of cursor_pops.h: three BYTE channels. -/
structure Color where
  r : Nat
  g : Nat
  b : Nat
deriving DecidableEq, Repr

/-- The default constructor Color(): black. -/
def Color.black : Color := ⟨0, 0, 0⟩

/-- ParseHexColor of cursor_pops_args.cpp. -/
def ParseHexColor (hex : WString) : Color :=
  let cleanHex := if hex.headD nul = '#' then substrFrom hex 1 else hex
  if cleanHex.length ≠ 6 then Color.black
  else if ¬ cleanHex.all iswxdigit then Color.black
  else
    let up := cleanHex.map towupper
    ⟨wcstoul16 (substr up 0 2) % 256,
     wcstoul16 (substr up 2 2) % 256,
     wcstoul16 (substr up 4 2) % 256⟩

/-! ## Floating point -/

/-- An IEEE-754 value: the finite value (-1)^neg * m * 2^e, kept with m odd or
with m = 0 and e = 0 (a signed zero); an infinity; or a NaN. -/
inductive FloatVal where
  | fin (neg : Bool) (m : Nat) (e : Int)
  | inf (neg : Bool)
  | nan
deriving DecidableEq, Repr

/-- A binary format: bits of precision, least and greatest normal exponent. -/
structure Fmt where
  prec : Nat
  emin : Int
  emax : Int

/-- The type float. -/
def binary32 : Fmt := ⟨24, -126, 127⟩

/-- The type double. -/
def binary64 : Fmt := ⟨53, -1022, 1023⟩

/-- Bit length with explicit fuel. -/
def bitLenAux : Nat → Nat → Nat
  | 0, _ => 0
  | fuel + 1, n => if n = 0 then 0 else bitLenAux fuel (n / 2) + 1

/-- Number of bits of n: the least k with n < 2^k. -/
def bitLen (n : Nat) : Nat := bitLenAux n n

/-- Trailing zero bits moved from the mantissa into the exponent. -/
def stripZeros : Nat → Nat → Int → Nat × Int
  | 0, m, e => (m, e)
  | fuel + 1, m, e =>
    if m ≠ 0 ∧ m % 2 = 0 then stripZeros fuel (m / 2) (e + 1) else (m, e)

/-- The finite value m * 2^e in its kept form. -/
def FloatVal.mk (neg : Bool) (m : Nat) (e : Int) : FloatVal :=
  if m = 0 then .fin neg 0 0
  else .fin neg (stripZeros m m e).1 (stripZeros m m e).2

/-- The positive rational N / D rounded to the format, to nearest and ties to
even, with gradual underflow; an infinity when the rounded value exceeds the
format. -/
def roundRat (f : Fmt) (neg : Bool) (N D : Nat) : FloatVal :=
  if N = 0 ∨ D = 0 then .fin neg 0 0
  else
    let e0 : Int := (bitLen N : Int) - (bitLen D : Int)
    let ge : Bool :=
      if 0 ≤ e0 then decide (D * 2 ^ e0.toNat ≤ N) else decide (D ≤ N * 2 ^ (-e0).toNat)
    let e : Int := if ge then e0 else e0 - 1
    let q : Int := max e f.emin - ((f.prec : Int) - 1)
    let A : Nat := if 0 ≤ q then N else N * 2 ^ (-q).toNat
    let B : Nat := if 0 ≤ q then D * 2 ^ q.toNat else D
    let fl := A / B
    let r := A % B
    let n := if 2 * r < B then fl else if B < 2 * r then fl + 1
             else if fl % 2 = 0 then fl else fl + 1
    if f.emax + 1 < (bitLen n : Int) + q then .inf neg else FloatVal.mk neg n q

/-- Unary minus. -/
def FloatVal.neg : FloatVal → FloatVal
  | .fin s m e => .fin (!s) m e
  | .inf s => .inf (!s)
  | .nan => .nan

/-- The comparison x == 0. -/
def FloatVal.isZero : FloatVal → Bool
  | .fin _ m _ => m = 0
  | _ => false

/-- Positive zero, the value of the literal 0. -/
def FloatVal.zero : FloatVal := .fin false 0 0

/-- An unsigned integer converted to the format. -/
def FloatVal.ofNat (f : Fmt) (n : Nat) : FloatVal := roundRat f false n 1

/-- The product in the given format. -/
def FloatVal.mul (f : Fmt) : FloatVal → FloatVal → FloatVal
  | .fin s1 m1 e1, .fin s2 m2 e2 =>
    let e := e1 + e2
    if 0 ≤ e then roundRat f (xor s1 s2) (m1 * m2 * 2 ^ e.toNat) 1
    else roundRat f (xor s1 s2) (m1 * m2) (2 ^ (-e).toNat)
  | .fin s1 m1 _, .inf s2 => if m1 = 0 then .nan else .inf (xor s1 s2)
  | .inf s1, .fin s2 m2 _ => if m2 = 0 then .nan else .inf (xor s1 s2)
  | .inf s1, .inf s2 => .inf (xor s1 s2)
  | _, _ => .nan

/-- The quotient in the given format. -/
def FloatVal.div (f : Fmt) : FloatVal → FloatVal → FloatVal
  | .fin s1 m1 e1, .fin s2 m2 e2 =>
    if m2 = 0 then (if m1 = 0 then .nan else .inf (xor s1 s2))
    else
      let e := e1 - e2
      if 0 ≤ e then roundRat f (xor s1 s2) (m1 * 2 ^ e.toNat) m2
      else roundRat f (xor s1 s2) m1 (m2 * 2 ^ (-e).toNat)
  | .fin s1 _ _, .inf s2 => .fin (xor s1 s2) 0 0
  | .inf s1, .fin s2 _ _ => .inf (xor s1 s2)
  | _, _ => .nan

/-- The integer part, rounded toward zero; none for an infinity or a NaN. -/
def FloatVal.trunc : FloatVal → Option Int
  | .fin s m e =>
    let a : Nat := if 0 ≤ e then m * 2 ^ e.toNat else m / 2 ^ (-e).toNat
    some (if s then -(a : Int) else a)
  | _ => none

/-- The cast (BYTE)x of a float, as x64 code performs it: truncation to a
32-bit int, of which the low byte is kept (the integer indefinite value when
the truncation does not fit). The C++ standard defines it only for -1 < x < 256. -/
def byteOfFloat (x : FloatVal) : Nat :=
  match x.trunc with
  | some i => if -(2 ^ 31) ≤ i ∧ i < 2 ^ 31 then (i % 256).toNat else 0
  | none => 0

/-- The cast (DWORD)x of a double, as x64 code performs it: truncation to a
64-bit int, of which the low 32 bits are kept. The C++ standard defines it only
for -1 < x < 2^32. -/
def dwordOfFloat (x : FloatVal) : Nat :=
  match x.trunc with
  | some i => if -(2 ^ 63) ≤ i ∧ i < 2 ^ 63 then (i % 2 ^ 32).toNat else 0
  | none => 0

/-! ## Number literals: the subject sequence of strtof and strtod -/

/-- What a number literal denotes before rounding. -/
inductive NumLit where
  | rat (N D : Nat)
  | inf
  | nan
deriving DecidableEq, Repr

/-- Mantissa digits of the given base with an optional point: the value of the
digits, the number of digits after the point, and the rest of the string; none
when there is no digit at all. -/
def lexMantissa (base : Nat) (s : WString) : Option (Nat × Nat × WString) :=
  let ip := countDigits base s
  let s1 := dropDigits base s
  let hasPoint : Bool := s1.headD nul = '.'
  let fp := if hasPoint then countDigits base (s1.drop 1) else 0
  let s2 := if hasPoint then dropDigits base (s1.drop 1) else s1
  if ip + fp = 0 then none
  else some (accumDigits base (s.take ip ++ (s1.drop 1).take fp) 0, fp, s2)

/-- An optional exponent part: the marker character (either case), an optional
sign and at least one decimal digit; 0 when it is absent or incomplete. -/
def lexExponent (marker : Char) (s : WString) : Int :=
  match s with
  | [] => 0
  | c :: rest =>
    if towlower c = marker then
      let p := splitSign rest
      if digitVal (p.2.headD nul) < 10 then
        (if p.1 then -(accumDigits 10 p.2 0 : Int) else (accumDigits 10 p.2 0 : Int))
      else 0
    else 0

/-- The fraction mant * base^scale as numerator and denominator. -/
def scaled (mant base : Nat) (scale : Int) : NumLit :=
  if 0 ≤ scale then .rat (mant * base ^ scale.toNat) 1
  else .rat mant (base ^ (-scale).toNat)

/-- A decimal floating literal: digits, optional point, optional exponent. -/
def lexDecimal (s : WString) : Option NumLit :=
  match lexMantissa 10 s with
  | none => none
  | some (mant, fp, rest) => some (scaled mant 10 (lexExponent 'e' rest - fp))

/-- A hexadecimal floating literal, after its 0x. -/
def lexHex (s : WString) : Option NumLit :=
  match lexMantissa 16 s with
  | none => none
  | some (mant, fp, rest) => some (scaled mant 2 (lexExponent 'p' rest - 4 * fp))

/-- The number at the front of a string as strtof and strtod read it: white
space, an optional sign, then inf, nan, a hexadecimal or a decimal literal.
The result is the sign and the value; none when no conversion is possible. -/
def lexNumber (s : WString) : Option (Bool × NumLit) :=
  let p := splitSign (skipSpace s)
  let t := p.2
  if (t.take 3).map towlower = ['i', 'n', 'f'] then some (p.1, .inf)
  else if (t.take 3).map towlower = ['n', 'a', 'n'] then some (p.1, .nan)
  else
    let hex : Option NumLit :=
      if t.headD nul = '0' ∧ towlower ((t.drop 1).headD nul) = 'x' then lexHex (t.drop 2)
      else none
    match hex with
    | some v => some (p.1, v)
    | none =>
      match lexDecimal t with
      | some v => some (p.1, v)
      | none => none

/-- The conversion of strtof or strtod followed by the checks of std::stof or
std::stod: none when no conversion is possible (invalid_argument) and when the
value overflows or a nonzero value rounds to zero (out_of_range). -/
def stoFloat (f : Fmt) (s : WString) : Option FloatVal :=
  match lexNumber s with
  | none => none
  | some (neg, .inf) => some (.inf neg)
  | some (_, .nan) => some .nan
  | some (neg, .rat N D) =>
    match roundRat f neg N D with
    | .fin sg m e => if m = 0 ∧ N ≠ 0 then none else some (.fin sg m e)
    | _ => none

/-- The call std::stof(s). -/
def stof (s : WString) : Option FloatVal := stoFloat binary32 s

/-- The call std::stod(s). -/
def stod (s : WString) : Option FloatVal := stoFloat binary64 s

/-! ## Colour literals -/

/-- The int 255 and the int 1000 converted to float or double, as the usual
arithmetic conversions do to the right operand of x * 255 and x * 1000. -/
def floatOfInt (f : Fmt) (n : Nat) : FloatVal := FloatVal.ofNat f n

/-- ParseRGBColor of cursor_pops_args.cpp; none when std::stof or std::stoi
throws. With pos1 equal to npos the second search starts at npos + 1, which
wraps to index 0. -/
def ParseRGBColor (rgb : WString) : Option Color :=
  let pos1 := wfind rgb ',' 0
  let pos2 := wfind rgb ',' (match pos1 with | some p => p + 1 | none => 0)
  match pos1, pos2 with
  | some p1, some p2 =>
    let r := substr rgb 0 p1
    let g := substr rgb (p1 + 1) (p2 - p1 - 1)
    let b := substrFrom rgb (p2 + 1)
    if (wfind r '.' 0).isSome then
      match stof r, stof g, stof b with
      | some fr, some fg, some fb =>
        some ⟨byteOfFloat (FloatVal.mul binary32 fr (floatOfInt binary32 255)),
              byteOfFloat (FloatVal.mul binary32 fg (floatOfInt binary32 255)),
              byteOfFloat (FloatVal.mul binary32 fb (floatOfInt binary32 255))⟩
      | _, _, _ => none
    else
      match stoi r, stoi g, stoi b with
      | some ir, some ig, some ib => some ⟨byteOfInt ir, byteOfInt ig, byteOfInt ib⟩
      | _, _, _ => none
  | _, _ => some Color.black

/-- ParseColor of cursor_pops_args.cpp: the catch-all handler maps any
exception to the default colour. -/
def ParseColor (colorStr : WString) : Color :=
  if colorStr = [] then Color.black
  else if colorStr.headD nul = '#' then ParseHexColor colorStr
  else
    match ParseRGBColor colorStr with
    | some c => c
    | none => Color.black

/-- AdjustColorForVisibility of cursor_pops_args.cpp. -/
def AdjustColorForVisibility (color : Color) : Color :=
  if color.r = 255 ∧ color.g = 0 ∧ color.b = 255 then ⟨255, 0, 254⟩ else color

/-! ## Velocity literals -/

/-- struct Velocity of cursor_pops.h: two float components. -/
structure Velocity where
  x : FloatVal
  y : FloatVal
deriving DecidableEq, Repr

/-- The default constructor Velocity(): no movement. -/
def Velocity.zero : Velocity := ⟨FloatVal.zero, FloatVal.zero⟩

/-- ParseVelocity of cursor_pops_args.cpp: the catch-all handler maps any
exception to the zero velocity. -/
def ParseVelocity (velStr : WString) : Velocity :=
  match wfind velStr ',' 0 with
  | none =>
    match stof velStr with
    | some y => ⟨FloatVal.zero, y.neg⟩
    | none => Velocity.zero
  | some commaPos =>
    match stof (substr velStr 0 commaPos), stof (substrFrom velStr (commaPos + 1)) with
    | some x, some y => ⟨x, y⟩
    | _, _ => Velocity.zero

/-! ## The command line -/

/-- struct CommandLineArgs of cursor_pops.h. -/
structure CommandLineArgs where
  text : WString
  follow : Bool
  block : Bool
  outline : Bool
  ease : Bool
  easeOutDuration : Nat
  displayDuration : Nat
  outlineColor : Color
  textColor : Color
  velocity : Velocity
deriving DecidableEq, Repr

/-- The initial value of result in ParseCommandLine. -/
def defaultArgs : CommandLineArgs :=
  { text := "Sample Text".toList, follow := false, block := false, outline := false,
    ease := false, easeOutDuration := 1000, displayDuration := 3000,
    outlineColor := Color.black, textColor := ⟨255, 255, 255⟩, velocity := Velocity.zero }

/-- The variables of the splitting loop of ParseCommandLine. -/
structure SplitState where
  args : List WString
  current : WString
  inQuotes : Bool
deriving DecidableEq, Repr

/-- One iteration of the splitting loop, on the character c. -/
def splitStep (st : SplitState) (c : Char) : SplitState :=
  if c = dquote then { st with inQuotes := !st.inQuotes }
  else if c = ' ' ∧ st.inQuotes = false then
    (if st.current ≠ [] then { st with args := st.args ++ [st.current], current := [] }
     else st)
  else { st with current := st.current ++ [c] }

/-- What follows the splitting loop: a pending token is pushed. -/
def splitFinish (st : SplitState) : List WString :=
  if st.current ≠ [] then st.args ++ [st.current] else st.args

/-- The token list args that ParseCommandLine builds from the raw string. -/
def tokenize (cmdLine : WString) : List WString :=
  splitFinish (cmdLine.foldl splitStep ⟨[], [], false⟩)

/-- The option loop of ParseCommandLine over the tokens still to be read; a
branch that executes i++ continues after the following token. -/
def parseArgs : List WString → CommandLineArgs → CommandLineArgs
  | [], result => result
  | a :: rest, result =>
    if a = "-f".toList ∨ a = "--follow".toList then
      parseArgs rest { result with follow := true }
    else if a = "-v".toList ∨ a = "--velocity".toList then
      match rest with
      | v :: rest2 => parseArgs rest2 { result with velocity := ParseVelocity v }
      | [] => result
    else if a = "-t".toList ∨ a = "--text".toList then
      match rest with
      | v :: rest2 => parseArgs rest2 { result with text := v }
      | [] => result
    else if a = "-o".toList ∨ a = "--outline".toList then
      match rest with
      | v :: rest2 =>
        if v.headD nul ≠ '-' then
          parseArgs rest2 { result with
            outline := true, outlineColor := AdjustColorForVisibility (ParseColor v) }
        else parseArgs (v :: rest2) { result with outline := true }
      | [] => { result with outline := true }
    else if a = "-c".toList ∨ a = "--color".toList then
      match rest with
      | v :: rest2 =>
        if v.headD nul ≠ '-' then
          parseArgs rest2 { result with textColor := AdjustColorForVisibility (ParseColor v) }
        else parseArgs (v :: rest2) result
      | [] => result
    else if a = "-d".toList ∨ a = "--duration".toList then
      match rest with
      | v :: rest2 =>
        if v.headD nul ≠ '-' then
          match stod v with
          | some seconds =>
            parseArgs rest2 { result with
              displayDuration :=
                dwordOfFloat (FloatVal.mul binary64 seconds (floatOfInt binary64 1000)) }
          | none => parseArgs (v :: rest2) result
        else parseArgs (v :: rest2) result
      | [] => result
    else if a = "-e".toList ∨ a = "--ease".toList then
      match rest with
      | v :: rest2 =>
        if v.headD nul ≠ '-' then
          match stod v with
          | some seconds =>
            parseArgs rest2 { result with
              ease := true,
              easeOutDuration :=
                dwordOfFloat (FloatVal.mul binary64 seconds (floatOfInt binary64 1000)) }
          | none => parseArgs (v :: rest2) { result with ease := true }
        else parseArgs (v :: rest2) { result with ease := true }
      | [] => { result with ease := true }
    else if a = "-b".toList ∨ a = "--block".toList then
      parseArgs rest { result with block := true }
    else if a ≠ [] ∧ a.headD nul ≠ '-' then
      parseArgs rest { result with text := a }
    else parseArgs rest result

/-- One iteration of the option loop of ParseCommandLine on the token a, with
the tokens that follow it: the tokens left for the next iteration and the
updated record. -/
def argStep (a : WString) (rest : List WString) (result : CommandLineArgs) :
    List WString × CommandLineArgs :=
  if a = "-f".toList ∨ a = "--follow".toList then (rest, { result with follow := true })
  else if a = "-v".toList ∨ a = "--velocity".toList then
    match rest with
    | v :: rest2 => (rest2, { result with velocity := ParseVelocity v })
    | [] => ([], result)
  else if a = "-t".toList ∨ a = "--text".toList then
    match rest with
    | v :: rest2 => (rest2, { result with text := v })
    | [] => ([], result)
  else if a = "-o".toList ∨ a = "--outline".toList then
    match rest with
    | v :: rest2 =>
      if v.headD nul ≠ '-' then
        (rest2, { result with
          outline := true, outlineColor := AdjustColorForVisibility (ParseColor v) })
      else (v :: rest2, { result with outline := true })
    | [] => ([], { result with outline := true })
  else if a = "-c".toList ∨ a = "--color".toList then
    match rest with
    | v :: rest2 =>
      if v.headD nul ≠ '-' then
        (rest2, { result with textColor := AdjustColorForVisibility (ParseColor v) })
      else (v :: rest2, result)
    | [] => ([], result)
  else if a = "-d".toList ∨ a = "--duration".toList then
    match rest with
    | v :: rest2 =>
      if v.headD nul ≠ '-' then
        match stod v with
        | some seconds =>
          (rest2, { result with
            displayDuration :=
              dwordOfFloat (FloatVal.mul binary64 seconds (floatOfInt binary64 1000)) })
        | none => (v :: rest2, result)
      else (v :: rest2, result)
    | [] => ([], result)
  else if a = "-e".toList ∨ a = "--ease".toList then
    match rest with
    | v :: rest2 =>
      if v.headD nul ≠ '-' then
        match stod v with
        | some seconds =>
          (rest2, { result with
            ease := true,
            easeOutDuration :=
              dwordOfFloat (FloatVal.mul binary64 seconds (floatOfInt binary64 1000)) })
        | none => (v :: rest2, { result with ease := true })
      else (v :: rest2, { result with ease := true })
    | [] => ([], { result with ease := true })
  else if a = "-b".toList ∨ a = "--block".toList then (rest, { result with block := true })
  else if a ≠ [] ∧ a.headD nul ≠ '-' then (rest, { result with text := a })
  else (rest, result)

/-- How a call of ParseCommandLine ends: ShowUsage followed by ExitProcess
with the given code, or a returned options record. -/
inductive ParseOutcome where
  | usageExit (code : Nat)
  | parsed (args : CommandLineArgs)
deriving DecidableEq, Repr

/-- ParseCommandLine of cursor_pops_args.cpp. -/
def ParseCommandLine (cmdLine : WString) : ParseOutcome :=
  let args := tokenize cmdLine
  if args = [] ∨ "-h".toList ∈ args ∨ "--help".toList ∈ args then .usageExit 0
  else .parsed (parseArgs args defaultArgs)

/-! ## The relaunch command of wWinMain -/

/-- The conversion %d of swprintf_s for a BYTE argument. -/
def fmtD (n : Nat) : WString := Nat.toDigits 10 n

/-- The conversion %.1f of swprintf_s for a double argument: the exact binary
value rounded to one decimal, ties to even; a negative value keeps its sign
even when it rounds to zero. -/
def fmtF1 : FloatVal → WString
  | .fin neg m e =>
    let A : Nat := if 0 ≤ e then m * 10 * 2 ^ e.toNat else m * 10
    let B : Nat := if 0 ≤ e then 1 else 2 ^ (-e).toNat
    let fl := A / B
    let r := A % B
    let k := if 2 * r < B then fl else if B < 2 * r then fl + 1
             else if fl % 2 = 0 then fl else fl + 1
    (if neg then ['-'] else []) ++ Nat.toDigits 10 (k / 10) ++ ['.'] ++ Nat.toDigits 10 (k % 10)
  | .inf neg => (if neg then ['-'] else []) ++ ['i', 'n', 'f']
  | .nan => ['n', 'a', 'n']

/-- The conversion %s of swprintf_s for s.c_str(): the characters before the
first null character. -/
def fmtS (s : WString) : WString := s.takeWhile (fun c => c ≠ nul)

/-- A call of swprintf_s into a buffer of the given number of WCHARs: none when
the output and its terminator do not fit, in which case the invalid-parameter
handler ends the process. -/
def swprintf_s (size : Nat) (out : WString) : Option WString :=
  if out.length + 1 ≤ size then some out else none

/-- The expression d / 1000.0 for a DWORD d. -/
def secondsOfMs (d : Nat) : FloatVal :=
  FloatVal.div binary64 (FloatVal.ofNat binary64 d) (FloatVal.ofNat binary64 1000)

/-- The buffer outlineColorStr of wWinMain. -/
def outlineColorStr (args : CommandLineArgs) : Option WString :=
  if args.outline ∧ ¬ (args.outlineColor.r = 0 ∧ args.outlineColor.g = 0 ∧
      args.outlineColor.b = 0) then
    swprintf_s 32 ("-o ".toList ++ fmtD args.outlineColor.r ++ [','] ++
      fmtD args.outlineColor.g ++ [','] ++ fmtD args.outlineColor.b)
  else some []

/-- The buffer textColorStr of wWinMain. -/
def textColorStr (args : CommandLineArgs) : Option WString :=
  if args.textColor.r ≠ 255 ∨ args.textColor.g ≠ 255 ∨ args.textColor.b ≠ 255 then
    swprintf_s 32 ("-c ".toList ++ fmtD args.textColor.r ++ [','] ++
      fmtD args.textColor.g ++ [','] ++ fmtD args.textColor.b)
  else some []

/-- The buffer easeStr of wWinMain. -/
def easeStr (args : CommandLineArgs) : Option WString :=
  if args.ease then
    (if args.easeOutDuration ≠ 1000 then
      swprintf_s 32 ("-e ".toList ++ fmtF1 (secondsOfMs args.easeOutDuration))
     else some "-e".toList)
  else some []

/-- The buffer durationStr of wWinMain. -/
def durationStr (args : CommandLineArgs) : Option WString :=
  if args.displayDuration ≠ 3000 then
    swprintf_s 32 ("-d ".toList ++ fmtF1 (secondsOfMs args.displayDuration))
  else some []

/-- The buffer velocityStr of wWinMain. -/
def velocityStr (args : CommandLineArgs) : Option WString :=
  if args.velocity.x.isZero = false ∨ args.velocity.y.isZero = false then
    (if args.velocity.x.isZero then
      swprintf_s 32 ("-v ".toList ++ fmtF1 args.velocity.y.neg)
     else
      swprintf_s 32 ("-v ".toList ++ fmtF1 args.velocity.x ++ [','] ++ fmtF1 args.velocity.y))
  else some []

/-- The part of the relaunch command that follows the quoted executable path
and its space, which is the command line the relaunched process parses; none
when one of the 32-WCHAR buffers overflows. -/
def relaunchArguments (args : CommandLineArgs) : Option WString :=
  match outlineColorStr args, textColorStr args, easeStr args, durationStr args,
      velocityStr args with
  | some oStr, some cStr, some eStr, some dStr, some vStr =>
    some ([dquote] ++ fmtS args.text ++ [dquote] ++ [' '] ++
      (if args.follow then "-f".toList else []) ++ [' '] ++
      (if args.outline then (if oStr ≠ [] then oStr else "-o".toList) else []) ++ [' '] ++
      cStr ++ [' '] ++ eStr ++ [' '] ++ dStr ++ [' '] ++ vStr ++ " -b".toList)
  | _, _, _, _, _ => none

/-- The buffer cmdLine of wWinMain, of MAX_PATH * 2 = 520 WCHARs, for the
executable path that GetModuleFileNameW returned. -/
def relaunchCommand (exePath : WString) (args : CommandLineArgs) : Option WString :=
  match relaunchArguments args with
  | some tail => swprintf_s 520 ([dquote] ++ fmtS exePath ++ [dquote] ++ [' '] ++ tail)
  | none => none

/-- The options the relaunched process obtains: its ParseCommandLine applied to
the arguments of the relaunch command. -/
def reparse (args : CommandLineArgs) : Option ParseOutcome :=
  (relaunchArguments args).map ParseCommandLine

/-! ## The presentation state of cursor_pops_core.cpp -/

/-- The Windows struct POINT: two LONG coordinates. -/
structure POINT where
  x : Int
  y : Int
deriving DecidableEq, Repr

/-- The Windows struct SIZE: two LONG extents. -/
structure SIZE where
  cx : Int
  cy : Int
deriving DecidableEq, Repr

/-- The result of int or LONG arithmetic as x64 code delivers it: the value
reduced to the 32-bit two's complement range. The C++ standard defines the
result only when the value is already in that range. -/
def wrapInt (z : Int) : Int :=
  (z + 2 ^ 31) % 2 ^ 32 - 2 ^ 31

/-- The cast (int)x of a float, as x64 code performs it: truncation toward
zero, and the integer indefinite value -2^31 when the truncation does not fit
or x is an infinity or a NaN. The C++ standard defines it only when the
truncation fits. -/
def intOfFloat (x : FloatVal) : Int :=
  match x.trunc with
  | some i => if -(2 ^ 31) ≤ i ∧ i < 2 ^ 31 then i else -(2 ^ 31)
  | none => -(2 ^ 31)

/-- The global variables that RunCursorPops initialises from the options and
that nothing changes afterwards. -/
structure Settings where
  followCursor : Bool
  useOutline : Bool
  outlineColor : Color
  textColor : Color
  useEaseOut : Bool
  easeOutDuration : Nat
  displayDuration : Nat
  textVelocity : Velocity
deriving DecidableEq, Repr

/-- The assignments at the head of RunCursorPops. -/
def settingsOf (args : CommandLineArgs) : Settings :=
  { followCursor := args.follow, useOutline := args.outline,
    outlineColor := args.outlineColor, textColor := args.textColor,
    useEaseOut := args.ease, easeOutDuration := args.easeOutDuration,
    displayDuration := args.displayDuration, textVelocity := args.velocity }

/-- The global and static variables that the timer handler changes, and the
placement of the window that SetWindowPos sets. -/
structure Presentation where
  currentAlpha : Nat
  currentOffsetX : FloatVal
  currentOffsetY : FloatVal
  initialPositionSet : Bool
  initialCursorPos : POINT
  windowPos : POINT
  windowSize : SIZE
deriving DecidableEq, Repr

/-- The state when RunCursorPops enters its message loop: the initialisers of
the globals and statics, and the window that CreateWindowExW made for the
measured text at the position the system chose. -/
def initialPresentation (textSize : SIZE) (createdAt : POINT) : Presentation :=
  { currentAlpha := 255, currentOffsetX := FloatVal.zero, currentOffsetY := FloatVal.zero,
    initialPositionSet := false, initialCursorPos := ⟨0, 0⟩, windowPos := createdAt,
    windowSize := ⟨wrapInt (textSize.cx + 40), wrapInt (textSize.cy + 20)⟩ }

/-- UpdateWindowPosition of cursor_pops_core.cpp, for the cursor position that
GetCursorPos returns, the elapsed time GetTickCount64() - showStartTime read in
this call, and the text size that GetTextDimensions measures. -/
def UpdateWindowPosition (cfg : Settings) (st : Presentation) (cursorPos : POINT)
    (elapsedTime : Nat) (textSize : SIZE) : Presentation :=
  let initialCursorPos := if st.initialPositionSet = false then cursorPos else st.initialCursorPos
  let initialPositionSet := if st.initialPositionSet = false then true else st.initialPositionSet
  let moving : Bool := !cfg.textVelocity.x.isZero || !cfg.textVelocity.y.isZero
  let seconds :=
    FloatVal.div binary32 (FloatVal.ofNat binary32 elapsedTime) (FloatVal.ofNat binary32 1000)
  let currentOffsetX :=
    if moving then FloatVal.mul binary32 cfg.textVelocity.x seconds else st.currentOffsetX
  let currentOffsetY :=
    if moving then FloatVal.mul binary32 cfg.textVelocity.y seconds else st.currentOffsetY
  let anchor := if cfg.followCursor = false ∧ initialPositionSet = true then initialCursorPos
                else cursorPos
  { st with
    initialPositionSet := initialPositionSet,
    initialCursorPos := initialCursorPos,
    currentOffsetX := currentOffsetX,
    currentOffsetY := currentOffsetY,
    windowPos :=
      ⟨wrapInt (anchor.x - Int.tdiv textSize.cx 2 + intOfFloat currentOffsetX),
       wrapInt (anchor.y - textSize.cy - 20 + intOfFloat currentOffsetY)⟩,
    windowSize := ⟨wrapInt (textSize.cx + 40), wrapInt (textSize.cy + 20)⟩ }

/-- What the timer handler reads from the system on one tick: the elapsed time
GetTickCount64() - showStartTime in the handler (a ULONGLONG, below 2^64), and
the three readings of UpdateWindowPosition. -/
structure TickInput where
  elapsedTime : Nat
  cursorPos : POINT
  elapsedTimeUpdate : Nat
  textSize : SIZE
deriving DecidableEq, Repr

/-- The calls of UpdateWindowPosition that a sequence of ticks makes, in order,
each with its own readings. -/
def updateAll (cfg : Settings) (st : Presentation) (calls : List TickInput) : Presentation :=
  calls.foldl
    (fun s inp => UpdateWindowPosition cfg s inp.cursorPos inp.elapsedTimeUpdate inp.textSize)
    st

/-- The test textVelocity.x != 0 || textVelocity.y != 0 of UpdateWindowPosition. -/
def isMoving (cfg : Settings) : Bool :=
  !cfg.textVelocity.x.isZero || !cfg.textVelocity.y.isZero

/-- The drift in pixels that UpdateWindowPosition adds for a velocity component
v at the elapsed time t: the single-precision quotient t / 1000.0f, the
single-precision product with v, and the cast to int. -/
def driftPixels (v : FloatVal) (elapsedTime : Nat) : Int :=
  intOfFloat (FloatVal.mul binary32 v
    (FloatVal.div binary32 (FloatVal.ofNat binary32 elapsedTime) (FloatVal.ofNat binary32 1000)))

/-- The expression 255 * (displayDuration + easeOutDuration - elapsedTime) /
easeOutDuration cast to BYTE: a DWORD sum, then ULONGLONG subtraction, product
and quotient; none when the divisor is zero. -/
def fadeAlpha (displayDuration easeOutDuration elapsedTime : Nat) : Option Nat :=
  let sum := (displayDuration + easeOutDuration) % 2 ^ 32
  let diff := (sum + 2 ^ 64 - elapsedTime) % 2 ^ 64
  let prod := (255 * diff) % 2 ^ 64
  if easeOutDuration = 0 then none else some (prod / easeOutDuration % 256)

/-- How the WM_TIMER case of WindowProc ends: DestroyWindow was called, the
division trapped on a zero divisor, or the handler returned with the window
alive. -/
inductive TimerOutcome where
  | destroyed
  | divideByZero
  | running (st : Presentation)
deriving DecidableEq, Repr

/-- The path condition of the assignment to currentAlpha in the WM_TIMER case:
the three tests that lead to it. -/
def fadeReached (cfg : Settings) (elapsedTime : Nat) : Prop :=
  cfg.displayDuration < elapsedTime ∧ cfg.useEaseOut = true ∧
    ¬ ((cfg.displayDuration + cfg.easeOutDuration) % 2 ^ 32 < elapsedTime)

instance (cfg : Settings) (t : Nat) : Decidable (fadeReached cfg t) := by
  unfold fadeReached
  infer_instance

/-- The WM_TIMER case of WindowProc of cursor_pops_core.cpp. -/
def WindowProcTimer (cfg : Settings) (st : Presentation) (inp : TickInput) : TimerOutcome :=
  if cfg.displayDuration < inp.elapsedTime then
    if cfg.useEaseOut = false then .destroyed
    else if (cfg.displayDuration + cfg.easeOutDuration) % 2 ^ 32 < inp.elapsedTime then
      .destroyed
    else
      match fadeAlpha cfg.displayDuration cfg.easeOutDuration inp.elapsedTime with
      | none => .divideByZero
      | some alpha =>
        .running (UpdateWindowPosition cfg { st with currentAlpha := alpha }
          inp.cursorPos inp.elapsedTimeUpdate inp.textSize)
  else
    .running (UpdateWindowPosition cfg st inp.cursorPos inp.elapsedTimeUpdate inp.textSize)

/-- The ticks that the message loop dispatches, in order, until the window is
destroyed. -/
def runTimer (cfg : Settings) : Presentation → List TickInput → TimerOutcome
  | st, [] => .running st
  | st, inp :: rest =>
    match WindowProcTimer cfg st inp with
    | .running st2 => runTimer cfg st2 rest
    | out => out

/-! ## Reference values used in the statements -/

/-- The colour that the window uses as its transparency key: RGB(255, 0, 255)
in the calls of SetLayeredWindowAttributes. -/
def keyColor : Color := ⟨255, 0, 255⟩

/-- The value of a hexadecimal digit as the colour grammar reads it, by table;
0 for any other character. -/
def hexDigitValue : Char → Nat
  | '0' => 0 | '1' => 1 | '2' => 2 | '3' => 3 | '4' => 4
  | '5' => 5 | '6' => 6 | '7' => 7 | '8' => 8 | '9' => 9
  | 'a' => 10 | 'b' => 11 | 'c' => 12 | 'd' => 13 | 'e' => 14 | 'f' => 15
  | 'A' => 10 | 'B' => 11 | 'C' => 12 | 'D' => 13 | 'E' => 14 | 'F' => 15
  | _ => 0

/-- The value of a group of two hexadecimal digits. -/
def hexPairValue (hi lo : Char) : Nat := 16 * hexDigitValue hi + hexDigitValue lo

/-- The twenty-two hexadecimal digit characters. -/
def hexChars : WString := "0123456789abcdefABCDEF".toList

/-- The integer nearest to 1000 * num / den, halves upward: the number of
milliseconds in num / den seconds, rounded. -/
def nearestMillis (num den : Nat) : Nat := (2 * (1000 * num) + den) / (2 * den)

/-- The settings of the fade examples: the defaults, a display of 3000 ms and a
fade of 1000 ms, with the fade enabled. -/
def fadeSettings : Settings := { settingsOf defaultArgs with useEaseOut := true }

/-- The state at the start of the examples: a window for a text of 50 by 16
pixels. -/
def startState : Presentation := initialPresentation ⟨50, 16⟩ ⟨0, 0⟩

/-- A tick of the examples at the elapsed time t, with the cursor at (100,200)
and a text of 50 by 16 pixels. -/
def tickAt (t : Nat) : TickInput := ⟨t, ⟨100, 200⟩, t, ⟨50, 16⟩⟩

/-- The settings of the position example of the spec: no follow, velocity
(0,-10) pixels per second. -/
def driftSettings : Settings :=
  { settingsOf defaultArgs with textVelocity := ⟨FloatVal.zero, .fin true 5 1⟩ }

/-- Settings with follow and the velocity (15,0), as [-f -v 15,0] gives. -/
def slowSettings : Settings :=
  { settingsOf defaultArgs with
    followCursor := true, textVelocity := ⟨.fin false 15 0, FloatVal.zero⟩ }

/-! ## Input classes: strings that begin with a number -/

/-- A string begins with an integer as std::stoi reads one: after optional
white space and an optional sign, a decimal digit. -/
def beginsWithInteger (s : WString) : Bool :=
  iswdigit ((splitSign (skipSpace s)).2.headD nul)

/-- A string begins with a floating-point number as std::stof reads one: after
optional white space and an optional sign, a decimal digit, a point followed by
a decimal digit, or one of the words inf and nan in any case. -/
def beginsWithFloat (s : WString) : Bool :=
  iswdigit ((splitSign (skipSpace s)).2.headD nul) ||
  ((splitSign (skipSpace s)).2.headD nul = '.' &&
    iswdigit (((splitSign (skipSpace s)).2.drop 1).headD nul)) ||
  (((splitSign (skipSpace s)).2.take 3).map towlower = ['i', 'n', 'f']) ||
  (((splitSign (skipSpace s)).2.take 3).map towlower = ['n', 'a', 'n'])

/-! ## The splitting loop and quoted tokens -/

/-- Inside quotes the splitting loop appends every character that is not a
double quote. -/
theorem foldl_splitStep_quoted (s : WString) (hq : dquote ∉ s) (args : List WString)
    (cur : WString) :
    s.foldl splitStep ⟨args, cur, true⟩ = ⟨args, cur ++ s, true⟩ := by
  induction s generalizing cur with
  | nil => simp
  | cons c t ih =>
    have hc : c ≠ dquote := fun h => hq (by simp [h])
    have ht : dquote ∉ t := fun h => hq (by simp [h])
    simp [List.foldl, splitStep, hc, ih ht]

/-- Outside or inside quotes, the splitting loop appends a run of characters
without space and double quote. -/
theorem foldl_splitStep_word (w : WString) (hq : dquote ∉ w) (hs : ' ' ∉ w)
    (args : List WString) (cur : WString) (b : Bool) :
    w.foldl splitStep ⟨args, cur, b⟩ = ⟨args, cur ++ w, b⟩ := by
  induction w generalizing cur with
  | nil => simp
  | cons c t ih =>
    have hc : c ≠ dquote := fun h => hq (by simp [h])
    have hc2 : c ≠ ' ' := fun h => hs (by simp [h])
    have ht : dquote ∉ t := fun h => hq (by simp [h])
    have ht2 : ' ' ∉ t := fun h => hs (by simp [h])
    simp [List.foldl, splitStep, hc, hc2, ih ht ht2]

/-- The tokens of the command line of the quoted-token claim. -/
theorem tokenize_quoted (s : WString) (hne : s ≠ []) (hq : dquote ∉ s) :
    tokenize ("-t ".toList ++ [dquote] ++ s ++ [dquote] ++ " -f".toList)
      = ["-t".toList, s, "-f".toList] := by
  have h1 : "-t ".toList.foldl splitStep ⟨[], [], false⟩ = ⟨["-t".toList], [], false⟩ := by
    decide
  have h2 : splitStep ⟨["-t".toList], [], false⟩ dquote = ⟨["-t".toList], [], true⟩ := by
    decide
  have h3 : splitStep ⟨["-t".toList], s, true⟩ dquote = ⟨["-t".toList], s, false⟩ := by
    simp [splitStep]
  have h4 : " -f".toList.foldl splitStep ⟨["-t".toList], s, false⟩
      = ⟨["-t".toList, s], "-f".toList, false⟩ := by
    have d1 : ¬ (' ' = dquote) := by decide
    have d2 : ¬ ('-' = dquote) := by decide
    have d3 : ¬ ('f' = dquote) := by decide
    simp [String.toList, List.foldl, splitStep, d1, d2, d3, hne]
  unfold tokenize
  rw [List.foldl_append, List.foldl_append, List.foldl_append, List.foldl_append, h1]
  simp only [List.foldl_cons, List.foldl_nil, h2]
  rw [foldl_splitStep_quoted s hq]
  simp only [List.nil_append, h3, h4]
  simp [splitFinish, String.toList]

/-- C4. For every non-empty s without a double quote that is neither -h nor
--help, the command line made of -t, a space, s between double quotes, a space
and -f parses to the text s exactly, follow = true, and every other field at
its default. -/
theorem quoted_token (s : WString) (hne : s ≠ []) (hq : dquote ∉ s)
    (hh : s ≠ "-h".toList) (hh2 : s ≠ "--help".toList) :
    ParseCommandLine ("-t ".toList ++ [dquote] ++ s ++ [dquote] ++ " -f".toList)
      = .parsed { defaultArgs with text := s, follow := true } := by
  unfold ParseCommandLine
  rw [tokenize_quoted s hne hq]
  have m1 : ¬ ("-h".toList ∈ ["-t".toList, s, "-f".toList]) := by
    simp only [List.mem_cons, List.mem_singleton, List.not_mem_nil, or_false, not_or]
    exact ⟨by decide, fun h => hh h.symm, by decide⟩
  have m2 : ¬ ("--help".toList ∈ ["-t".toList, s, "-f".toList]) := by
    simp only [List.mem_cons, List.mem_singleton, List.not_mem_nil, or_false, not_or]
    exact ⟨by decide, fun h => hh2 h.symm, by decide⟩
  have p1 : parseArgs ["-t".toList, s, "-f".toList] defaultArgs
      = parseArgs ["-f".toList] { defaultArgs with text := s } := by
    rw [parseArgs]
    simp [String.toList]
  have p2 : parseArgs ["-f".toList] { defaultArgs with text := s }
      = { defaultArgs with text := s, follow := true } := by
    rw [parseArgs]
    simp [String.toList, parseArgs]
  have hno : ¬ (["-t".toList, s, "-f".toList] = [] ∨
      "-h".toList ∈ ["-t".toList, s, "-f".toList] ∨
      "--help".toList ∈ ["-t".toList, s, "-f".toList]) := by
    rintro (h | h | h)
    · exact absurd h (List.cons_ne_nil _ _)
    · exact m1 h
    · exact m2 h
  dsimp only
  rw [if_neg hno, p1, p2]

/-- Witness of C4 at the text Hello World. -/
theorem quoted_token_witness :
    ParseCommandLine ("-t ".toList ++ [dquote] ++ "Hello World".toList ++ [dquote] ++ " -f".toList)
      = .parsed { defaultArgs with text := "Hello World".toList, follow := true } :=
  quoted_token "Hello World".toList (by decide) (by decide) (by decide) (by decide)

/-! ## The relaunch, the help path and the consumption of values -/

set_option maxHeartbeats 4000000 in
set_option maxRecDepth 100000 in
/-- C1 (defect in the code). The relaunch does not round-trip. The command line
[-t -5] parses to the text -5; the relaunch passes the text as a bare quoted
token, which the relaunched parser skips because it begins with a minus sign,
so the text falls back to Sample Text. The command line [x -d 1.26] parses to
a display duration of 1260 ms; the relaunch prints it with one decimal, and the
relaunched parser reads 1300 ms. -/
theorem relaunch_round_trip_broken :
    ParseCommandLine "-t -5".toList = .parsed { defaultArgs with text := "-5".toList } ∧
    reparse { defaultArgs with text := "-5".toList }
      = some (.parsed { defaultArgs with block := true }) ∧
    ParseCommandLine "x -d 1.26".toList
      = .parsed { defaultArgs with text := "x".toList, displayDuration := 1260 } ∧
    reparse { defaultArgs with text := "x".toList, displayDuration := 1260 }
      = some (.parsed { defaultArgs with
          text := "x".toList, displayDuration := 1300, block := true }) := by
  refine ⟨by decide, by decide!, by decide!, by decide!⟩

/-- C2. ParseCommandLine shows the usage text and exits with code 0, returning
no options record, exactly when the token list is empty or has a token equal to
-h or --help, whatever the position of that token; in every other case it
returns an options record; the exit code is never anything but 0. -/
theorem help_path (cmdLine : WString) :
    (ParseCommandLine cmdLine = .usageExit 0 ↔
      (tokenize cmdLine = [] ∨ "-h".toList ∈ tokenize cmdLine ∨
        "--help".toList ∈ tokenize cmdLine)) ∧
    ((∃ r, ParseCommandLine cmdLine = .parsed r) ↔
      ¬ (tokenize cmdLine = [] ∨ "-h".toList ∈ tokenize cmdLine ∨
        "--help".toList ∈ tokenize cmdLine)) ∧
    (∀ code, ParseCommandLine cmdLine = .usageExit code → code = 0) := by
  unfold ParseCommandLine
  dsimp only
  by_cases h : tokenize cmdLine = [] ∨ "-h".toList ∈ tokenize cmdLine ∨
      "--help".toList ∈ tokenize cmdLine
  · rw [if_pos h]
    refine ⟨⟨fun _ => h, fun _ => rfl⟩, ⟨?_, fun hn => absurd h hn⟩, ?_⟩
    · rintro ⟨r, hr⟩
      cases hr
    · intro code hc
      cases hc
      rfl
  · rw [if_neg h]
    refine ⟨⟨?_, fun hc => absurd hc h⟩, ⟨fun _ => h, fun _ => ⟨_, rfl⟩⟩, ?_⟩
    · intro hc
      cases hc
    · intro code hc
      cases hc


/-- C3, counterexample. The command line [-t -f] stores -f as the text and
leaves follow false: the token after -t is consumed although it begins with a
minus sign. -/
theorem text_flag_takes_dash_token :
    ParseCommandLine "-t -f".toList = .parsed { defaultArgs with text := "-f".toList } ∧
    ¬ (∃ r, ParseCommandLine "-t -f".toList = .parsed r ∧
        r.text = defaultArgs.text ∧ r.follow = true) := by
  have h : ParseCommandLine "-t -f".toList
      = .parsed { defaultArgs with text := "-f".toList } := by decide
  refine ⟨h, ?_⟩
  rintro ⟨r, hr, _, hf⟩
  rw [h] at hr
  cases hr
  exact absurd hf (by decide)

/-- C3, amended. When the token v after the flag begins with a minus sign:
-o, -c, -d and -e (and their long forms) do not consume v, which is then read
as an option of its own, -o and -e still setting their flag; -t and -v (and
their long forms) both consume v as their value. -/
theorem value_consumption (v : WString) (rest : List WString) (r : CommandLineArgs)
    (hv : v.headD nul = '-') :
    (∀ a, a = "-o".toList ∨ a = "--outline".toList →
      parseArgs (a :: v :: rest) r = parseArgs (v :: rest) { r with outline := true }) ∧
    (∀ a, a = "-c".toList ∨ a = "--color".toList →
      parseArgs (a :: v :: rest) r = parseArgs (v :: rest) r) ∧
    (∀ a, a = "-d".toList ∨ a = "--duration".toList →
      parseArgs (a :: v :: rest) r = parseArgs (v :: rest) r) ∧
    (∀ a, a = "-e".toList ∨ a = "--ease".toList →
      parseArgs (a :: v :: rest) r = parseArgs (v :: rest) { r with ease := true }) ∧
    (∀ a, a = "-t".toList ∨ a = "--text".toList →
      parseArgs (a :: v :: rest) r = parseArgs rest { r with text := v }) ∧
    (∀ a, a = "-v".toList ∨ a = "--velocity".toList →
      parseArgs (a :: v :: rest) r
        = parseArgs rest { r with velocity := ParseVelocity v }) := by
  have hv2 : (List.head? v).getD nul = '-' := by simpa using hv
  refine ⟨?_, ?_, ?_, ?_, ?_, ?_⟩ <;>
  · rintro a (rfl | rfl) <;>
    · rw [parseArgs]
      simp [String.toList, hv2]

/-- Witness of the amended C3 at v = -f, with nothing after it. -/
theorem value_consumption_witness :
    "-f".toList.headD nul = '-' ∧
    (∀ a, a = "-o".toList ∨ a = "--outline".toList →
      parseArgs (a :: "-f".toList :: []) defaultArgs
        = parseArgs ("-f".toList :: []) { defaultArgs with outline := true }) ∧
    (∀ a, a = "-t".toList ∨ a = "--text".toList →
      parseArgs (a :: "-f".toList :: []) defaultArgs
        = parseArgs [] { defaultArgs with text := "-f".toList }) :=
  ⟨by decide, (value_consumption "-f".toList [] defaultArgs (by decide)).1,
   (value_consumption "-f".toList [] defaultArgs (by decide)).2.2.2.2.1⟩


/-! ## Hexadecimal colours -/

/-- A character that iswxdigit accepts is one of the twenty-two. -/
theorem mem_hexChars_of_iswxdigit (c : Char) (h : iswxdigit c = true) : c ∈ hexChars := by
  obtain ⟨n, hn⟩ : ∃ n, c.toNat = n := ⟨_, rfl⟩
  have hc : c = Char.ofNat n := by rw [← hn, Char.ofNat_toNat]
  simp only [iswxdigit, iswdigit, Bool.or_eq_true, Bool.and_eq_true, decide_eq_true_eq, hn] at h
  subst hc
  rcases h with (⟨h1, h2⟩ | ⟨h1, h2⟩) | ⟨h1, h2⟩ <;> interval_cases n <;> decide

set_option maxRecDepth 100000 in
/-- On two hexadecimal digits, upper-cased as ParseHexColor does, wcstoul in
base 16 followed by the cast to BYTE gives the value of the pair. -/
theorem wcstoul16_pair_mem :
    ∀ a ∈ hexChars, ∀ b ∈ hexChars,
      wcstoul16 [towupper a, towupper b] % 256 = hexPairValue a b := by
  decide

/-- Changing the case of a hexadecimal digit changes neither its class nor its
value. -/
theorem hexChars_case :
    ∀ a ∈ hexChars, iswxdigit (towupper a) = true ∧ iswxdigit (towlower a) = true ∧
      hexDigitValue (towupper a) = hexDigitValue a ∧
      hexDigitValue (towlower a) = hexDigitValue a := by
  decide

/-- The same for any two characters that iswxdigit accepts. -/
theorem wcstoul16_pair (a b : Char) (ha : iswxdigit a = true) (hb : iswxdigit b = true) :
    wcstoul16 [towupper a, towupper b] % 256 = hexPairValue a b :=
  wcstoul16_pair_mem a (mem_hexChars_of_iswxdigit a ha) b (mem_hexChars_of_iswxdigit b hb)

/-- ParseColor on a number sign followed by six hexadecimal digits. -/
theorem parseColor_hex6 (a b c d e f : Char)
    (ha : iswxdigit a = true) (hb : iswxdigit b = true) (hc : iswxdigit c = true)
    (hd : iswxdigit d = true) (he : iswxdigit e = true) (hf : iswxdigit f = true) :
    ParseColor ['#', a, b, c, d, e, f]
      = ⟨hexPairValue a b, hexPairValue c d, hexPairValue e f⟩ := by
  simp [ParseColor, ParseHexColor, substrFrom, substr, ha, hb, hc, hd, he, hf,
    wcstoul16_pair]


/-- C5. For every string h of six hexadecimal digits, ParseColor of # followed
by h has as channels the values of the first, second and third pair of digits;
and two such strings that differ only in the case of their digits give the same
colour, in particular h, its upper-case and its lower-case form. -/
theorem hex_colour (h : WString) (hlen : h.length = 6)
    (hx : ∀ c ∈ h, iswxdigit c = true) :
    ParseColor ('#' :: h)
      = ⟨hexPairValue (h.getD 0 nul) (h.getD 1 nul),
         hexPairValue (h.getD 2 nul) (h.getD 3 nul),
         hexPairValue (h.getD 4 nul) (h.getD 5 nul)⟩ ∧
    ParseColor ('#' :: h.map towupper) = ParseColor ('#' :: h) ∧
    ParseColor ('#' :: h.map towlower) = ParseColor ('#' :: h) ∧
    (∀ k : WString, k.length = 6 → (∀ c ∈ k, iswxdigit c = true) →
      k.map towlower = h.map towlower → ParseColor ('#' :: k) = ParseColor ('#' :: h)) := by
  have key : ∀ k : WString, k.length = 6 → (∀ c ∈ k, iswxdigit c = true) →
      (ParseColor ('#' :: k)
        = ⟨hexPairValue (k.getD 0 nul) (k.getD 1 nul),
           hexPairValue (k.getD 2 nul) (k.getD 3 nul),
           hexPairValue (k.getD 4 nul) (k.getD 5 nul)⟩) ∧
      ParseColor ('#' :: k.map towupper) = ParseColor ('#' :: k) ∧
      ParseColor ('#' :: k.map towlower) = ParseColor ('#' :: k) := by
    intro k klen kx
    match k, klen, kx with
    | [a, b, c, d, e, f], _, kx =>
      have ha := kx a (by simp)
      have hb := kx b (by simp)
      have hc := kx c (by simp)
      have hd := kx d (by simp)
      have he := kx e (by simp)
      have hf := kx f (by simp)
      have ca := hexChars_case a (mem_hexChars_of_iswxdigit a ha)
      have cb := hexChars_case b (mem_hexChars_of_iswxdigit b hb)
      have cc := hexChars_case c (mem_hexChars_of_iswxdigit c hc)
      have cd := hexChars_case d (mem_hexChars_of_iswxdigit d hd)
      have ce := hexChars_case e (mem_hexChars_of_iswxdigit e he)
      have cf := hexChars_case f (mem_hexChars_of_iswxdigit f hf)
      refine ⟨parseColor_hex6 a b c d e f ha hb hc hd he hf, ?_, ?_⟩
      · rw [parseColor_hex6 a b c d e f ha hb hc hd he hf]
        simp only [List.map_cons, List.map_nil]
        rw [parseColor_hex6 _ _ _ _ _ _ ca.1 cb.1 cc.1 cd.1 ce.1 cf.1]
        simp only [hexPairValue, ca.2.2.1, cb.2.2.1, cc.2.2.1, cd.2.2.1, ce.2.2.1, cf.2.2.1]
      · rw [parseColor_hex6 a b c d e f ha hb hc hd he hf]
        simp only [List.map_cons, List.map_nil]
        rw [parseColor_hex6 _ _ _ _ _ _ ca.2.1 cb.2.1 cc.2.1 cd.2.1 ce.2.1 cf.2.1]
        simp only [hexPairValue, ca.2.2.2, cb.2.2.2, cc.2.2.2, cd.2.2.2, ce.2.2.2, cf.2.2.2]
  refine ⟨(key h hlen hx).1, (key h hlen hx).2.1, (key h hlen hx).2.2, ?_⟩
  intro k klen kx hk
  rw [← (key k klen kx).2.2, ← (key h hlen hx).2.2, hk]

/-- Witness of C5: the colour literal #FF8000 is (255,128,0), and so is its
lower-case spelling. -/
theorem hex_colour_witness :
    ParseColor "#FF8000".toList = ⟨255, 128, 0⟩ ∧
    ParseColor "#ff8000".toList = ParseColor "#FF8000".toList :=
  ⟨(hex_colour "FF8000".toList (by decide) (by decide)).1,
   (hex_colour "FF8000".toList (by decide) (by decide)).2.2.2 "ff8000".toList
     (by decide) (by decide) (by decide)⟩


/-! ## Comma-separated colours -/

/-! ### Searching and cutting strings -/

/-- The first occurrence of c in r ++ c :: t, when c is not in r. -/
theorem indexOfChar_append (c : Char) (r t : WString) (hr : c ∉ r) :
    indexOfChar c (r ++ c :: t) = some r.length := by
  induction r with
  | nil => simp [indexOfChar]
  | cons x xs ih =>
    have hx : x ≠ c := fun h => hr (by simp [h])
    have hxs : c ∉ xs := fun h => hr (by simp [h])
    simp [indexOfChar, hx, ih hxs]

/-- The search fails exactly when the character does not occur. -/
theorem indexOfChar_eq_none (c : Char) (s : WString) :
    indexOfChar c s = none ↔ c ∉ s := by
  induction s with
  | nil => simp [indexOfChar]
  | cons x xs ih =>
    by_cases hx : x = c
    · simp [indexOfChar, hx]
    · have hx2 : ¬ c = x := fun h => hx h.symm
      simp [indexOfChar, hx, hx2, ih]

/-- A search from index 0. -/
theorem wfind_zero (s : WString) (c : Char) : wfind s c 0 = indexOfChar c s := by
  simp [wfind]

/-- The components of a literal r,g,b as ParseRGBColor cuts them. -/
theorem parseRGB_cut (r g b : WString) (hr : ',' ∉ r) (hg : ',' ∉ g) :
    ParseRGBColor (r ++ [','] ++ g ++ [','] ++ b) =
      if (wfind r '.' 0).isSome then
        match stof r, stof g, stof b with
        | some fr, some fg, some fb =>
          some ⟨byteOfFloat (FloatVal.mul binary32 fr (floatOfInt binary32 255)),
                byteOfFloat (FloatVal.mul binary32 fg (floatOfInt binary32 255)),
                byteOfFloat (FloatVal.mul binary32 fb (floatOfInt binary32 255))⟩
        | _, _, _ => none
      else
        match stoi r, stoi g, stoi b with
        | some ir, some ig, some ib => some ⟨byteOfInt ir, byteOfInt ig, byteOfInt ib⟩
        | _, _, _ => none := by
  have e0 : r ++ [','] ++ g ++ [','] ++ b = r ++ ',' :: (g ++ ',' :: b) := by simp
  have p1 : wfind (r ++ ',' :: (g ++ ',' :: b)) ',' 0 = some r.length := by
    rw [wfind_zero, indexOfChar_append _ _ _ hr]
  have p2 : wfind (r ++ ',' :: (g ++ ',' :: b)) ',' (r.length + 1)
      = some (r.length + 1 + g.length) := by
    have d : (r ++ ',' :: (g ++ ',' :: b)).drop (r.length + 1) = g ++ ',' :: b := by
      rw [List.drop_append_eq_append_drop]
      simp
    unfold wfind
    rw [d, indexOfChar_append _ _ _ hg]
    simp [Nat.add_comm]
  have s1 : substr (r ++ ',' :: (g ++ ',' :: b)) 0 r.length = r := by
    simp [substr]
  have s2 : substr (r ++ ',' :: (g ++ ',' :: b)) (r.length + 1)
      (r.length + 1 + g.length - r.length - 1) = g := by
    have d : (r ++ ',' :: (g ++ ',' :: b)).drop (r.length + 1) = g ++ ',' :: b := by
      rw [List.drop_append_eq_append_drop]
      simp
    have n : r.length + 1 + g.length - r.length - 1 = g.length := by omega
    unfold substr
    rw [d, n]
    simp
  have s3 : substrFrom (r ++ ',' :: (g ++ ',' :: b)) (r.length + 1 + g.length + 1) = b := by
    unfold substrFrom
    rw [List.drop_append_eq_append_drop]
    rw [show r.length + 1 + g.length + 1 - r.length = (g.length + 1) + 1 by omega]
    have d0 : r.drop (r.length + 1 + g.length + 1) = [] :=
      List.drop_eq_nil_of_le (by omega)
    rw [d0, List.nil_append, List.drop_succ_cons, List.drop_append_eq_append_drop]
    simp
  rw [e0]
  unfold ParseRGBColor
  simp only [p1, p2, s1, s2, s3]


/-- A successful search cuts the string at the first occurrence. -/
theorem indexOfChar_eq_some (c : Char) (s : WString) (i : Nat)
    (h : indexOfChar c s = some i) :
    ∃ r t, s = r ++ c :: t ∧ r.length = i ∧ c ∉ r := by
  induction s generalizing i with
  | nil => simp [indexOfChar] at h
  | cons x xs ih =>
    by_cases hx : x = c
    · subst hx
      simp [indexOfChar] at h
      exact ⟨[], xs, by simp, by simp [h], by simp⟩
    · simp only [indexOfChar, hx, if_false, Option.map_eq_some'] at h
      obtain ⟨j, hj, rfl⟩ := h
      obtain ⟨r, t, e, hl, hn⟩ := ih j hj
      refine ⟨x :: r, t, by simp [e], by simp [hl], ?_⟩
      intro hm
      rcases List.mem_cons.mp hm with h1 | h1
      · exact hx h1.symm
      · exact hn h1

/-- With fewer than two commas ParseRGBColor returns the default colour. -/
theorem parseRGB_few_commas (s : WString) (hc : s.count ',' < 2) :
    ParseRGBColor s = some Color.black := by
  unfold ParseRGBColor
  rw [wfind_zero]
  cases h : indexOfChar ',' s with
  | none => simp
  | some i =>
    obtain ⟨r, t, e, hl, hn⟩ := indexOfChar_eq_some _ _ _ h
    have ht : ',' ∉ t := by
      intro hm
      have c1 : List.count ',' t ≥ 1 := List.count_pos_iff.mpr hm
      rw [e] at hc
      simp [List.count_append, List.count_cons] at hc
      omega
    have d : s.drop (i + 1) = t := by
      rw [e, ← hl, List.drop_append_eq_append_drop]
      simp
    have p2 : wfind s ',' (i + 1) = none := by
      unfold wfind
      rw [d, (indexOfChar_eq_none _ _).mpr ht]
      rfl
    simp [p2]

/-- The number lexer rejects the empty string. -/
theorem stoFloat_nil (f : Fmt) : stoFloat f [] = none := by
  have h : lexNumber [] = none := by decide
  simp [stoFloat, h]

/-- The number lexer rejects a string that begins with a number sign. -/
theorem stoFloat_hash (f : Fmt) (t : WString) : stoFloat f ('#' :: t) = none := by
  have h1 : towlower '#' = '#' := by decide
  have h2 : ¬ digitVal '#' < 10 := by decide
  have h3 : iswspace '#' = false := by decide
  simp [stoFloat, lexNumber, skipSpace, splitSign, lexDecimal, lexMantissa, countDigits,
    dropDigits, h1, h2, h3, nul]

/-- A literal that std::stof reads is not empty and does not begin with a
number sign. -/
theorem head_of_stof (r : WString) (v : FloatVal) (h : stof r = some v) :
    r ≠ [] ∧ r.headD nul ≠ '#' := by
  cases r with
  | nil => simp [stof, stoFloat_nil] at h
  | cons c t =>
    refine ⟨by simp, ?_⟩
    intro hc
    simp only [List.headD_cons] at hc
    subst hc
    simp [stof, stoFloat_hash] at h


/-- The cast to BYTE of a float whose integer part lies in 0..255 is that
integer part. -/
theorem byteOfFloat_of_trunc (x : FloatVal) (i : Int) (h : x.trunc = some i)
    (h0 : 0 ≤ i) (h1 : i < 256) : byteOfFloat x = i.toNat := by
  unfold byteOfFloat
  rw [h]
  have hr : -(2 ^ 31) ≤ i ∧ i < 2 ^ 31 := by constructor <;> omega
  simp only [hr, and_self, if_true]
  rw [Int.emod_eq_of_lt h0 h1]

/-- C6, counterexample. The literal 1,0.5,0 has a decimal point in its second
component only; ParseColor reads it as integers and returns (1,0,0), not
(255,128,0). -/
theorem mixed_literal_read_as_integers :
    ParseColor "1,0.5,0".toList = ⟨1, 0, 0⟩ ∧
    ParseColor "1,0.5,0".toList ≠ ⟨255, 128, 0⟩ := by
  decide

/-- C6, amended. When the first component of a literal r,g,b contains a decimal
point and std::stof reads the three components as fr, fg and fb, ParseColor
returns in each channel the float product by 255 cast to a byte; the cast of a
float whose integer part (toward zero) lies in 0..255 is that integer part. -/
theorem float_colour (r g b : WString) (fr fg fb : FloatVal)
    (hr : ',' ∉ r) (hg : ',' ∉ g) (hp : '.' ∈ r)
    (sr : stof r = some fr) (sg : stof g = some fg) (sb : stof b = some fb) :
    ParseColor (r ++ [','] ++ g ++ [','] ++ b)
      = ⟨byteOfFloat (FloatVal.mul binary32 fr (floatOfInt binary32 255)),
         byteOfFloat (FloatVal.mul binary32 fg (floatOfInt binary32 255)),
         byteOfFloat (FloatVal.mul binary32 fb (floatOfInt binary32 255))⟩ ∧
    (∀ (x : FloatVal) (i : Int), x.trunc = some i → 0 ≤ i → i < 256 →
      byteOfFloat x = i.toNat) := by
  refine ⟨?_, byteOfFloat_of_trunc⟩
  obtain ⟨hne, hhd⟩ := head_of_stof r fr sr
  have hpt : (wfind r '.' 0).isSome = true := by
    rw [wfind_zero]
    cases h : indexOfChar '.' r with
    | none => exact absurd hp ((indexOfChar_eq_none _ _).mp h)
    | some i => rfl
  have cut := parseRGB_cut r g b hr hg
  rw [if_pos hpt, sr, sg, sb] at cut
  unfold ParseColor
  have e1 : r ++ [','] ++ g ++ [','] ++ b ≠ [] := by
    cases r with
    | nil => exact absurd rfl hne
    | cons c t => simp
  have e2 : (r ++ [','] ++ g ++ [','] ++ b).headD nul ≠ '#' := by
    cases r with
    | nil => exact absurd rfl hne
    | cons c t => simpa using hhd
  rw [if_neg e1, if_neg e2, cut]

/-- Witness of the amended C6: the literal 1.0,0.5,0 gives (255,127,0), the
middle channel being 127.5 truncated. -/
theorem float_colour_witness :
    ParseColor "1.0,0.5,0".toList = ⟨255, 127, 0⟩ := by
  have h := (float_colour "1.0".toList "0.5".toList "0".toList
    (.fin false 1 0) (.fin false 1 (-1)) (.fin false 0 0)
    (by decide) (by decide) (by decide) (by decide) (by decide) (by decide)).1
  have e1 : "1.0".toList ++ [','] ++ "0.5".toList ++ [','] ++ "0".toList
      = "1.0,0.5,0".toList := by decide
  have e2 : (⟨byteOfFloat (FloatVal.mul binary32 (.fin false 1 0) (floatOfInt binary32 255)),
      byteOfFloat (FloatVal.mul binary32 (.fin false 1 (-1)) (floatOfInt binary32 255)),
      byteOfFloat (FloatVal.mul binary32 (.fin false 0 0) (floatOfInt binary32 255))⟩ : Color)
      = ⟨255, 127, 0⟩ := by decide
  rw [e1, e2] at h
  exact h


/-- A literal that begins with a number sign and contains a comma is black. -/
theorem parseColor_hash_comma (t : WString) (hc : ',' ∈ t) :
    ParseColor ('#' :: t) = Color.black := by
  have hx : iswxdigit ',' = false := by decide
  have hall : ¬ (t.all iswxdigit = true) := by
    intro h
    rw [List.all_eq_true] at h
    have := h ',' hc
    rw [hx] at this
    exact absurd this (by decide)
  unfold ParseColor ParseHexColor
  simp only [List.headD_cons, substrFrom, List.drop_succ_cons, List.drop_zero]
  simp [hall]

/-- A literal r,g,b of which a component makes the number parser throw is
black, whichever path ParseColor takes. -/
theorem parseColor_component_fails (r g b : WString) (hr : ',' ∉ r) (hg : ',' ∉ g)
    (hfail : if (wfind r '.' 0).isSome then stof r = none ∨ stof g = none ∨ stof b = none
             else stoi r = none ∨ stoi g = none ∨ stoi b = none) :
    ParseColor (r ++ [','] ++ g ++ [','] ++ b) = Color.black := by
  by_cases hh : (r ++ [','] ++ g ++ [','] ++ b).headD nul = '#'
  · cases r with
    | nil => simp at hh
    | cons c t =>
      simp only [List.cons_append, List.headD_cons] at hh
      subst hh
      have : ',' ∈ t ++ [','] ++ g ++ [','] ++ b := by simp
      simpa using parseColor_hash_comma _ this
  · have cut := parseRGB_cut r g b hr hg
    have e1 : r ++ [','] ++ g ++ [','] ++ b ≠ [] := by simp
    unfold ParseColor
    rw [if_neg e1, if_neg hh, cut]
    by_cases hp : (wfind r '.' 0).isSome = true
    · rw [if_pos hp] at hfail ⊢
      rcases hfail with h | h | h
      · rw [h]
      · rw [h]
        cases stof r <;> rfl
      · rw [h]
        cases stof r <;> cases stof g <;> rfl
    · rw [if_neg hp] at hfail ⊢
      rcases hfail with h | h | h
      · rw [h]
      · rw [h]
        cases stoi r <;> rfl
      · rw [h]
        cases stoi r <;> cases stoi g <;> rfl

/-! ## Strings that do not begin with a number -/

/-- A character has a decimal digit value exactly when it is a decimal digit. -/
theorem digitVal_lt_ten (c : Char) : digitVal c < 10 ↔ iswdigit c = true := by
  unfold digitVal iswdigit
  simp only [Bool.and_eq_true, decide_eq_true_eq]
  constructor
  · intro h
    split_ifs at h with h1 h2 h3 <;> omega
  · intro h
    rw [if_pos h]
    omega

/-- A string whose first character is not a decimal digit has no leading
decimal digit. -/
theorem countDigits_of_head (l : WString) (h : iswdigit (l.headD nul) = false) :
    countDigits 10 l = 0 ∧ dropDigits 10 l = l := by
  cases l with
  | nil => exact ⟨rfl, rfl⟩
  | cons c cs =>
    have hc : ¬ digitVal c < 10 := by
      rw [digitVal_lt_ten]
      simpa using h
    simp [countDigits, dropDigits, hc]

/-- std::stoi throws on a string that does not begin with an integer. -/
theorem stoi_of_not_begins (s : WString) (h : beginsWithInteger s = false) :
    stoi s = none := by
  unfold beginsWithInteger at h
  unfold stoi
  dsimp only
  generalize (splitSign (skipSpace s)) = p at h ⊢
  cases hp : p.2 with
  | nil => rfl
  | cons c cs =>
    rw [hp] at h
    have hc : ¬ digitVal c < 10 := by
      rw [digitVal_lt_ten]
      simpa using h
    simp [hc]

/-- std::stof and std::stod throw on a string that does not begin with a
floating-point number. -/
theorem stoFloat_of_not_begins (f : Fmt) (s : WString) (h : beginsWithFloat s = false) :
    stoFloat f s = none := by
  unfold beginsWithFloat at h
  simp only [Bool.or_eq_false_iff, Bool.and_eq_false_iff, decide_eq_false_iff_not] at h
  obtain ⟨⟨⟨h1, h2⟩, h3⟩, h4⟩ := h
  have hlex : lexNumber s = none := by
    unfold lexNumber
    dsimp only
    generalize (splitSign (skipSpace s)) = p at h1 h2 h3 h4 ⊢
    have hzero : ¬ (p.2.headD nul = '0') := by
      intro hz
      rw [hz] at h1
      exact absurd h1 (by decide)
    have hdec : lexDecimal p.2 = none := by
      unfold lexDecimal lexMantissa
      dsimp only
      obtain ⟨c1, c2⟩ := countDigits_of_head p.2 h1
      rw [c1, c2]
      by_cases hpt : p.2.headD nul = '.'
      · have hn : iswdigit ((p.2.drop 1).headD nul) = false := by
          rcases h2 with h2 | h2
          · exact absurd hpt h2
          · exact h2
        obtain ⟨d1, _⟩ := countDigits_of_head (p.2.drop 1) hn
        have hpt2 : (List.head? p.2).getD nul = '.' := by simpa using hpt
        have d2 : countDigits 10 (List.tail p.2) = 0 := by simpa using d1
        simp [hpt2, d2]
      · have hpt2 : ¬ (List.head? p.2).getD nul = '.' := by simpa using hpt
        simp [hpt2]
    rw [if_neg h3, if_neg h4, if_neg (fun hh => hzero hh.1), hdec]
  unfold stoFloat
  rw [hlex]

/-- C7, counterexample. In the literal 1.0,nan,0 the second component begins
with the letter n, not with a number, yet ParseColor returns (255,0,0) and not
black: std::stof reads the word nan. The same holds for 0.5,inf,0. -/
theorem nan_component_not_black :
    iswdigit ("nan".toList.headD nul) = false ∧
    ParseColor "1.0,nan,0".toList = ⟨255, 0, 0⟩ ∧
    ParseColor "1.0,nan,0".toList ≠ Color.black ∧
    ParseColor "0.5,inf,0".toList ≠ Color.black := by
  refine ⟨by decide, by decide, by decide, by decide⟩

/-- C7, amended. ParseColor is a total function, and it returns black: on the
empty string; on a number sign followed by anything that is not six hexadecimal
digits; on a literal without number sign that has fewer than two commas; on a
literal r,g,b in which some component does not begin with a number as the
parser of its path reads one: without a decimal point in r, a component that
does not begin (after white space and a sign) with a decimal digit; with a
decimal point in r, a component that does not begin (after white space and a
sign) with a decimal digit, a point followed by a decimal digit, or the word
inf or nan. -/
theorem colour_fallback :
    ParseColor [] = Color.black ∧
    (∀ t : WString, (t.length ≠ 6 ∨ ∃ c ∈ t, iswxdigit c = false) →
      ParseColor ('#' :: t) = Color.black) ∧
    (∀ s : WString, s.headD nul ≠ '#' → s.count ',' < 2 → ParseColor s = Color.black) ∧
    (∀ r g b : WString, ',' ∉ r → ',' ∉ g →
      (if '.' ∈ r then
         beginsWithFloat r = false ∨ beginsWithFloat g = false ∨ beginsWithFloat b = false
       else
         beginsWithInteger r = false ∨ beginsWithInteger g = false ∨
           beginsWithInteger b = false) →
      ParseColor (r ++ [','] ++ g ++ [','] ++ b) = Color.black) ∧
    ParseColor "bad".toList = Color.black ∧
    ParseColor "#12345".toList = Color.black ∧
    ParseColor "#12345G".toList = Color.black ∧
    ParseColor "a,1,2".toList = Color.black ∧
    ParseColor "1,,2".toList = Color.black := by
  refine ⟨by decide, ?_, ?_, ?_, by decide, by decide, by decide, by decide, by decide⟩
  · intro t ht
    unfold ParseColor ParseHexColor
    simp only [List.headD_cons, substrFrom, List.drop_succ_cons, List.drop_zero]
    rcases ht with h | ⟨c, hc, hx⟩
    · simp [h]
    · have hall : ¬ (t.all iswxdigit = true) := by
        intro h
        rw [List.all_eq_true] at h
        have := h c hc
        rw [hx] at this
        exact absurd this (by decide)
      simp [hall]
  · intro s hs hc
    unfold ParseColor
    by_cases he : s = []
    · rw [if_pos he]
    · rw [if_neg he, if_neg hs, parseRGB_few_commas s hc]
  · intro r g b hr hg hfail
    apply parseColor_component_fails r g b hr hg
    have hiff : ((wfind r '.' 0).isSome = true) ↔ '.' ∈ r := by
      rw [wfind_zero]
      cases h : indexOfChar '.' r with
      | none => simpa using (indexOfChar_eq_none _ _).mp h
      | some i =>
        obtain ⟨a, t, e, _, _⟩ := indexOfChar_eq_some _ _ _ h
        simp [e]
    by_cases hp : '.' ∈ r
    · rw [if_pos hp] at hfail
      rw [if_pos (hiff.mpr hp)]
      rcases hfail with h | h | h
      · exact Or.inl (stoFloat_of_not_begins binary32 r h)
      · exact Or.inr (Or.inl (stoFloat_of_not_begins binary32 g h))
      · exact Or.inr (Or.inr (stoFloat_of_not_begins binary32 b h))
    · rw [if_neg hp] at hfail
      rw [if_neg (fun h => hp (hiff.mp h))]
      rcases hfail with h | h | h
      · exact Or.inl (stoi_of_not_begins r h)
      · exact Or.inr (Or.inl (stoi_of_not_begins g h))
      · exact Or.inr (Or.inr (stoi_of_not_begins b h))

/-! ## The option loop -/

set_option maxHeartbeats 1000000 in
/-- The option loop is the iteration of argStep. -/
theorem parseArgs_cons (a : WString) (rest : List WString) (r : CommandLineArgs) :
    parseArgs (a :: rest) r = parseArgs (argStep a rest r).1 (argStep a rest r).2 := by
  cases rest with
  | nil =>
    rw [parseArgs.eq_3]
    unfold argStep
    by_cases h1 : a = "-f".toList ∨ a = "--follow".toList
    · simp only [if_pos h1, parseArgs.eq_1]
    by_cases h2 : a = "-v".toList ∨ a = "--velocity".toList
    · simp only [if_neg h1, if_pos h2, parseArgs.eq_1]
    by_cases h3 : a = "-t".toList ∨ a = "--text".toList
    · simp only [if_neg h1, if_neg h2, if_pos h3, parseArgs.eq_1]
    by_cases h4 : a = "-o".toList ∨ a = "--outline".toList
    · simp only [if_neg h1, if_neg h2, if_neg h3, if_pos h4, parseArgs.eq_1]
    by_cases h5 : a = "-c".toList ∨ a = "--color".toList
    · simp only [if_neg h1, if_neg h2, if_neg h3, if_neg h4, if_pos h5, parseArgs.eq_1]
    by_cases h6 : a = "-d".toList ∨ a = "--duration".toList
    · simp only [if_neg h1, if_neg h2, if_neg h3, if_neg h4, if_neg h5, if_pos h6,
        parseArgs.eq_1]
    by_cases h7 : a = "-e".toList ∨ a = "--ease".toList
    · simp only [if_neg h1, if_neg h2, if_neg h3, if_neg h4, if_neg h5, if_neg h6, if_pos h7,
        parseArgs.eq_1]
    by_cases h8 : a = "-b".toList ∨ a = "--block".toList
    · simp only [if_neg h1, if_neg h2, if_neg h3, if_neg h4, if_neg h5, if_neg h6, if_neg h7,
        if_pos h8, parseArgs.eq_1]
    by_cases h9 : a ≠ [] ∧ a.headD nul ≠ '-'
    · simp only [if_neg h1, if_neg h2, if_neg h3, if_neg h4, if_neg h5, if_neg h6, if_neg h7,
        if_neg h8, if_pos h9, parseArgs.eq_1]
    · simp only [if_neg h1, if_neg h2, if_neg h3, if_neg h4, if_neg h5, if_neg h6, if_neg h7,
        if_neg h8, if_neg h9, parseArgs.eq_1]
  | cons v rest2 =>
    rw [parseArgs.eq_2]
    unfold argStep
    by_cases hv : v.headD nul ≠ '-'
    · by_cases h1 : a = "-f".toList ∨ a = "--follow".toList
      · simp only [if_pos h1, if_pos hv]
      by_cases h2 : a = "-v".toList ∨ a = "--velocity".toList
      · simp only [if_neg h1, if_pos h2, if_pos hv]
      by_cases h3 : a = "-t".toList ∨ a = "--text".toList
      · simp only [if_neg h1, if_neg h2, if_pos h3, if_pos hv]
      by_cases h4 : a = "-o".toList ∨ a = "--outline".toList
      · simp only [if_neg h1, if_neg h2, if_neg h3, if_pos h4, if_pos hv]
      by_cases h5 : a = "-c".toList ∨ a = "--color".toList
      · simp only [if_neg h1, if_neg h2, if_neg h3, if_neg h4, if_pos h5, if_pos hv]
      by_cases h6 : a = "-d".toList ∨ a = "--duration".toList
      · simp only [if_neg h1, if_neg h2, if_neg h3, if_neg h4, if_neg h5, if_pos h6, if_pos hv]
        cases stod v <;> rfl
      by_cases h7 : a = "-e".toList ∨ a = "--ease".toList
      · simp only [if_neg h1, if_neg h2, if_neg h3, if_neg h4, if_neg h5, if_neg h6, if_pos h7,
          if_pos hv]
        cases stod v <;> rfl
      by_cases h8 : a = "-b".toList ∨ a = "--block".toList
      · simp only [if_neg h1, if_neg h2, if_neg h3, if_neg h4, if_neg h5, if_neg h6, if_neg h7,
          if_pos h8, if_pos hv]
      by_cases h9 : a ≠ [] ∧ a.headD nul ≠ '-'
      · simp only [if_neg h1, if_neg h2, if_neg h3, if_neg h4, if_neg h5, if_neg h6, if_neg h7,
          if_neg h8, if_pos h9, if_pos hv]
      · simp only [if_neg h1, if_neg h2, if_neg h3, if_neg h4, if_neg h5, if_neg h6, if_neg h7,
          if_neg h8, if_neg h9, if_pos hv]
    · by_cases h1 : a = "-f".toList ∨ a = "--follow".toList
      · simp only [if_pos h1, if_neg hv]
      by_cases h2 : a = "-v".toList ∨ a = "--velocity".toList
      · simp only [if_neg h1, if_pos h2, if_neg hv]
      by_cases h3 : a = "-t".toList ∨ a = "--text".toList
      · simp only [if_neg h1, if_neg h2, if_pos h3, if_neg hv]
      by_cases h4 : a = "-o".toList ∨ a = "--outline".toList
      · simp only [if_neg h1, if_neg h2, if_neg h3, if_pos h4, if_neg hv]
      by_cases h5 : a = "-c".toList ∨ a = "--color".toList
      · simp only [if_neg h1, if_neg h2, if_neg h3, if_neg h4, if_pos h5, if_neg hv]
      by_cases h6 : a = "-d".toList ∨ a = "--duration".toList
      · simp only [if_neg h1, if_neg h2, if_neg h3, if_neg h4, if_neg h5, if_pos h6, if_neg hv]
      by_cases h7 : a = "-e".toList ∨ a = "--ease".toList
      · simp only [if_neg h1, if_neg h2, if_neg h3, if_neg h4, if_neg h5, if_neg h6, if_pos h7,
          if_neg hv]
      by_cases h8 : a = "-b".toList ∨ a = "--block".toList
      · simp only [if_neg h1, if_neg h2, if_neg h3, if_neg h4, if_neg h5, if_neg h6, if_neg h7,
          if_pos h8, if_neg hv]
      by_cases h9 : a ≠ [] ∧ a.headD nul ≠ '-'
      · simp only [if_neg h1, if_neg h2, if_neg h3, if_neg h4, if_neg h5, if_neg h6, if_neg h7,
          if_neg h8, if_pos h9, if_neg hv]
      · simp only [if_neg h1, if_neg h2, if_neg h3, if_neg h4, if_neg h5, if_neg h6, if_neg h7,
          if_neg h8, if_neg h9, if_neg hv]


/-- What one iteration can do: leave the following tokens in place and change
at most one flag or the text; or consume the next token v as a value. -/
theorem argStep_cases (a : WString) (rest : List WString) (r : CommandLineArgs) :
    ((argStep a rest r).1 = rest ∧
      ((argStep a rest r).2 = r ∨
       (argStep a rest r).2 = { r with follow := true } ∨
       (argStep a rest r).2 = { r with block := true } ∨
       (argStep a rest r).2 = { r with text := a } ∨
       (argStep a rest r).2 = { r with outline := true } ∨
       (argStep a rest r).2 = { r with ease := true })) ∨
    (∃ v rest2, rest = v :: rest2 ∧ (argStep a rest r).1 = rest2 ∧
      ((argStep a rest r).2 = { r with velocity := ParseVelocity v } ∨
       (argStep a rest r).2 = { r with text := v } ∨
       (argStep a rest r).2 = { r with
          outline := true, outlineColor := AdjustColorForVisibility (ParseColor v) } ∨
       (argStep a rest r).2 = { r with
          textColor := AdjustColorForVisibility (ParseColor v) } ∨
       (∃ sec, (argStep a rest r).2 = { r with
          displayDuration :=
            dwordOfFloat (FloatVal.mul binary64 sec (floatOfInt binary64 1000)) }) ∨
       (∃ sec, (argStep a rest r).2 = { r with
          ease := true,
          easeOutDuration :=
            dwordOfFloat (FloatVal.mul binary64 sec (floatOfInt binary64 1000)) }))) := by
  unfold argStep
  cases rest with
  | nil =>
    by_cases h1 : a = "-f".toList ∨ a = "--follow".toList
    · rw [if_pos h1]
      exact Or.inl ⟨rfl, Or.inr (Or.inl rfl)⟩
    by_cases h2 : a = "-v".toList ∨ a = "--velocity".toList
    · rw [if_neg h1, if_pos h2]
      exact Or.inl ⟨rfl, Or.inl rfl⟩
    by_cases h3 : a = "-t".toList ∨ a = "--text".toList
    · rw [if_neg h1, if_neg h2, if_pos h3]
      exact Or.inl ⟨rfl, Or.inl rfl⟩
    by_cases h4 : a = "-o".toList ∨ a = "--outline".toList
    · rw [if_neg h1, if_neg h2, if_neg h3, if_pos h4]
      exact Or.inl ⟨rfl, Or.inr (Or.inr (Or.inr (Or.inr (Or.inl rfl))))⟩
    by_cases h5 : a = "-c".toList ∨ a = "--color".toList
    · rw [if_neg h1, if_neg h2, if_neg h3, if_neg h4, if_pos h5]
      exact Or.inl ⟨rfl, Or.inl rfl⟩
    by_cases h6 : a = "-d".toList ∨ a = "--duration".toList
    · rw [if_neg h1, if_neg h2, if_neg h3, if_neg h4, if_neg h5, if_pos h6]
      exact Or.inl ⟨rfl, Or.inl rfl⟩
    by_cases h7 : a = "-e".toList ∨ a = "--ease".toList
    · rw [if_neg h1, if_neg h2, if_neg h3, if_neg h4, if_neg h5, if_neg h6, if_pos h7]
      exact Or.inl ⟨rfl, Or.inr (Or.inr (Or.inr (Or.inr (Or.inr rfl))))⟩
    by_cases h8 : a = "-b".toList ∨ a = "--block".toList
    · rw [if_neg h1, if_neg h2, if_neg h3, if_neg h4, if_neg h5, if_neg h6, if_neg h7,
        if_pos h8]
      exact Or.inl ⟨rfl, Or.inr (Or.inr (Or.inl rfl))⟩
    by_cases h9 : a ≠ [] ∧ a.headD nul ≠ '-'
    · rw [if_neg h1, if_neg h2, if_neg h3, if_neg h4, if_neg h5, if_neg h6, if_neg h7,
        if_neg h8, if_pos h9]
      exact Or.inl ⟨rfl, Or.inr (Or.inr (Or.inr (Or.inl rfl)))⟩
    · rw [if_neg h1, if_neg h2, if_neg h3, if_neg h4, if_neg h5, if_neg h6, if_neg h7,
        if_neg h8, if_neg h9]
      exact Or.inl ⟨rfl, Or.inl rfl⟩
  | cons v rest2 =>
    by_cases hv : v.headD nul ≠ '-'
    · by_cases h1 : a = "-f".toList ∨ a = "--follow".toList
      · rw [if_pos h1]
        exact Or.inl ⟨rfl, Or.inr (Or.inl rfl)⟩
      by_cases h2 : a = "-v".toList ∨ a = "--velocity".toList
      · rw [if_neg h1, if_pos h2]
        exact Or.inr ⟨v, rest2, rfl, rfl, Or.inl rfl⟩
      by_cases h3 : a = "-t".toList ∨ a = "--text".toList
      · rw [if_neg h1, if_neg h2, if_pos h3]
        exact Or.inr ⟨v, rest2, rfl, rfl, Or.inr (Or.inl rfl)⟩
      by_cases h4 : a = "-o".toList ∨ a = "--outline".toList
      · rw [if_neg h1, if_neg h2, if_neg h3, if_pos h4]
        dsimp only
        rw [if_pos hv]
        exact Or.inr ⟨v, rest2, rfl, rfl, Or.inr (Or.inr (Or.inl rfl))⟩
      by_cases h5 : a = "-c".toList ∨ a = "--color".toList
      · rw [if_neg h1, if_neg h2, if_neg h3, if_neg h4, if_pos h5]
        dsimp only
        rw [if_pos hv]
        exact Or.inr ⟨v, rest2, rfl, rfl, Or.inr (Or.inr (Or.inr (Or.inl rfl)))⟩
      by_cases h6 : a = "-d".toList ∨ a = "--duration".toList
      · rw [if_neg h1, if_neg h2, if_neg h3, if_neg h4, if_neg h5, if_pos h6]
        dsimp only
        rw [if_pos hv]
        cases stod v with
        | none => exact Or.inl ⟨rfl, Or.inl rfl⟩
        | some sec => exact Or.inr ⟨v, rest2, rfl, rfl, Or.inr (Or.inr (Or.inr (Or.inr (Or.inl (⟨_, rfl⟩)))))⟩
      by_cases h7 : a = "-e".toList ∨ a = "--ease".toList
      · rw [if_neg h1, if_neg h2, if_neg h3, if_neg h4, if_neg h5, if_neg h6, if_pos h7]
        dsimp only
        rw [if_pos hv]
        cases stod v with
        | none => exact Or.inl ⟨rfl, Or.inr (Or.inr (Or.inr (Or.inr (Or.inr rfl))))⟩
        | some sec => exact Or.inr ⟨v, rest2, rfl, rfl, Or.inr (Or.inr (Or.inr (Or.inr (Or.inr (⟨_, rfl⟩)))))⟩
      by_cases h8 : a = "-b".toList ∨ a = "--block".toList
      · rw [if_neg h1, if_neg h2, if_neg h3, if_neg h4, if_neg h5, if_neg h6, if_neg h7,
          if_pos h8]
        exact Or.inl ⟨rfl, Or.inr (Or.inr (Or.inl rfl))⟩
      by_cases h9 : a ≠ [] ∧ a.headD nul ≠ '-'
      · rw [if_neg h1, if_neg h2, if_neg h3, if_neg h4, if_neg h5, if_neg h6, if_neg h7,
          if_neg h8, if_pos h9]
        exact Or.inl ⟨rfl, Or.inr (Or.inr (Or.inr (Or.inl rfl)))⟩
      · rw [if_neg h1, if_neg h2, if_neg h3, if_neg h4, if_neg h5, if_neg h6, if_neg h7,
          if_neg h8, if_neg h9]
        exact Or.inl ⟨rfl, Or.inl rfl⟩
    · by_cases h1 : a = "-f".toList ∨ a = "--follow".toList
      · rw [if_pos h1]
        exact Or.inl ⟨rfl, Or.inr (Or.inl rfl)⟩
      by_cases h2 : a = "-v".toList ∨ a = "--velocity".toList
      · rw [if_neg h1, if_pos h2]
        exact Or.inr ⟨v, rest2, rfl, rfl, Or.inl rfl⟩
      by_cases h3 : a = "-t".toList ∨ a = "--text".toList
      · rw [if_neg h1, if_neg h2, if_pos h3]
        exact Or.inr ⟨v, rest2, rfl, rfl, Or.inr (Or.inl rfl)⟩
      by_cases h4 : a = "-o".toList ∨ a = "--outline".toList
      · rw [if_neg h1, if_neg h2, if_neg h3, if_pos h4]
        dsimp only
        rw [if_neg hv]
        exact Or.inl ⟨rfl, Or.inr (Or.inr (Or.inr (Or.inr (Or.inl rfl))))⟩
      by_cases h5 : a = "-c".toList ∨ a = "--color".toList
      · rw [if_neg h1, if_neg h2, if_neg h3, if_neg h4, if_pos h5]
        dsimp only
        rw [if_neg hv]
        exact Or.inl ⟨rfl, Or.inl rfl⟩
      by_cases h6 : a = "-d".toList ∨ a = "--duration".toList
      · rw [if_neg h1, if_neg h2, if_neg h3, if_neg h4, if_neg h5, if_pos h6]
        dsimp only
        rw [if_neg hv]
        exact Or.inl ⟨rfl, Or.inl rfl⟩
      by_cases h7 : a = "-e".toList ∨ a = "--ease".toList
      · rw [if_neg h1, if_neg h2, if_neg h3, if_neg h4, if_neg h5, if_neg h6, if_pos h7]
        dsimp only
        rw [if_neg hv]
        exact Or.inl ⟨rfl, Or.inr (Or.inr (Or.inr (Or.inr (Or.inr rfl))))⟩
      by_cases h8 : a = "-b".toList ∨ a = "--block".toList
      · rw [if_neg h1, if_neg h2, if_neg h3, if_neg h4, if_neg h5, if_neg h6, if_neg h7,
          if_pos h8]
        exact Or.inl ⟨rfl, Or.inr (Or.inr (Or.inl rfl))⟩
      by_cases h9 : a ≠ [] ∧ a.headD nul ≠ '-'
      · rw [if_neg h1, if_neg h2, if_neg h3, if_neg h4, if_neg h5, if_neg h6, if_neg h7,
          if_neg h8, if_pos h9]
        exact Or.inl ⟨rfl, Or.inr (Or.inr (Or.inr (Or.inl rfl)))⟩
      · rw [if_neg h1, if_neg h2, if_neg h3, if_neg h4, if_neg h5, if_neg h6, if_neg h7,
          if_neg h8, if_neg h9]
        exact Or.inl ⟨rfl, Or.inl rfl⟩

/-- An iteration never lengthens the list of tokens still to be read. -/
theorem argStep_length (a : WString) (rest : List WString) (r : CommandLineArgs) :
    (argStep a rest r).1.length ≤ rest.length := by
  rcases argStep_cases a rest r with ⟨h, _⟩ | ⟨v, rest2, rfl, h, _⟩
  · rw [h]
  · rw [h]
    simp

/-- A property of the record that every iteration preserves holds at the end of
the option loop. -/
theorem parseArgs_preserves (I : CommandLineArgs → Prop)
    (hstep : ∀ a rest r, I r → I (argStep a rest r).2) :
    ∀ (args : List WString) (r : CommandLineArgs), I r → I (parseArgs args r) := by
  have key : ∀ (n : Nat) (args : List WString), args.length ≤ n →
      ∀ r : CommandLineArgs, I r → I (parseArgs args r) := by
    intro n
    induction n with
    | zero =>
      intro args hl r hI
      have : args = [] := List.eq_nil_of_length_eq_zero (by omega)
      subst this
      rw [parseArgs.eq_1]
      exact hI
    | succ n ih =>
      intro args hl r hI
      cases args with
      | nil =>
        rw [parseArgs.eq_1]
        exact hI
      | cons a rest =>
        rw [parseArgs_cons]
        apply ih
        · have := argStep_length a rest r
          simp only [List.length_cons] at hl
          omega
        · exact hstep a rest r hI
  intro args r hI
  exact key args.length args (Nat.le_refl _) r hI

/-- AdjustColorForVisibility never returns the transparency key. -/
theorem adjust_ne_key (c : Color) : AdjustColorForVisibility c ≠ keyColor := by
  unfold AdjustColorForVisibility keyColor
  split_ifs with h
  · decide
  · intro hc
    apply h
    rw [hc]
    exact ⟨rfl, rfl, rfl⟩

/-- An iteration keeps both colours different from the transparency key. -/
theorem argStep_colours (a : WString) (rest : List WString) (r : CommandLineArgs)
    (hI : r.textColor ≠ keyColor ∧ r.outlineColor ≠ keyColor) :
    (argStep a rest r).2.textColor ≠ keyColor ∧
      (argStep a rest r).2.outlineColor ≠ keyColor := by
  rcases argStep_cases a rest r with
    ⟨_, h | h | h | h | h | h⟩ | ⟨v, rest2, _, _, h | h | h | h | ⟨ms, h⟩ | ⟨ms, h⟩⟩
  all_goals rw [h]
  all_goals
    first
    | exact hI
    | exact ⟨hI.1, adjust_ne_key _⟩
    | exact ⟨adjust_ne_key _, hI.2⟩


/-! ### Single iterations of the option loop -/

/-- The velocity flag consumes the following token, whatever it begins with. -/
theorem parseArgs_velocity_flag (a v : WString) (rest : List WString) (r : CommandLineArgs)
    (ha : a = "-v".toList ∨ a = "--velocity".toList) :
    parseArgs (a :: v :: rest) r = parseArgs rest { r with velocity := ParseVelocity v } := by
  rcases ha with rfl | rfl <;>
  · rw [parseArgs.eq_2]
    simp [String.toList]

/-- A colour flag followed by a token that does not begin with a minus sign
stores the adjusted colour that the token denotes. -/
theorem parseArgs_colour_flags (v : WString) (rest : List WString) (r : CommandLineArgs)
    (hv : v.headD nul ≠ '-') :
    (∀ a, a = "-c".toList ∨ a = "--color".toList →
      parseArgs (a :: v :: rest) r
        = parseArgs rest { r with textColor := AdjustColorForVisibility (ParseColor v) }) ∧
    (∀ a, a = "-o".toList ∨ a = "--outline".toList →
      parseArgs (a :: v :: rest) r
        = parseArgs rest { r with
            outline := true, outlineColor := AdjustColorForVisibility (ParseColor v) }) := by
  have hv2 : ¬ (List.head? v).getD nul = '-' := by simpa using hv
  refine ⟨?_, ?_⟩ <;>
  · rintro a (rfl | rfl) <;>
    · rw [parseArgs.eq_2]
      simp [String.toList, hv2]

/-- A token that is not empty and does not begin with a minus sign becomes the
text. -/
theorem argStep_bare (a : WString) (rest : List WString) (r : CommandLineArgs)
    (hne : a ≠ []) (hd : a.headD nul ≠ '-') :
    argStep a rest r = (rest, { r with text := a }) := by
  cases a with
  | nil => exact absurd rfl hne
  | cons c t =>
    have hc : ¬ c = '-' := by simpa using hd
    unfold argStep
    simp [String.toList, hc]

/-- C8. Neither colour of a returned options record is the transparency key
(255,0,255). AdjustColorForVisibility maps the key to (255,0,254), leaves every
other colour unchanged and is idempotent; the argument of -c and of -o is
stored through it. -/
theorem never_key_colour :
    (∀ cmdLine r, ParseCommandLine cmdLine = .parsed r →
      r.textColor ≠ keyColor ∧ r.outlineColor ≠ keyColor) ∧
    AdjustColorForVisibility keyColor = ⟨255, 0, 254⟩ ∧
    (∀ c, c ≠ keyColor → AdjustColorForVisibility c = c) ∧
    (∀ c, AdjustColorForVisibility (AdjustColorForVisibility c) = AdjustColorForVisibility c) ∧
    (∀ v rest r, v.headD nul ≠ '-' →
      (∀ a, a = "-c".toList ∨ a = "--color".toList →
        parseArgs (a :: v :: rest) r
          = parseArgs rest { r with textColor := AdjustColorForVisibility (ParseColor v) }) ∧
      (∀ a, a = "-o".toList ∨ a = "--outline".toList →
        parseArgs (a :: v :: rest) r
          = parseArgs rest { r with
              outline := true, outlineColor := AdjustColorForVisibility (ParseColor v) })) ∧
    ParseCommandLine "x -c 255,0,255".toList
      = .parsed { defaultArgs with text := "x".toList, textColor := ⟨255, 0, 254⟩ } ∧
    ParseCommandLine "x -o #FF00FF".toList
      = .parsed { defaultArgs with
          text := "x".toList, outline := true, outlineColor := ⟨255, 0, 254⟩ } := by
  have hne : ∀ c, c ≠ keyColor → AdjustColorForVisibility c = c := by
    intro c hc
    unfold AdjustColorForVisibility
    rw [if_neg]
    rintro ⟨h1, h2, h3⟩
    apply hc
    cases c
    simp only [keyColor, Color.mk.injEq]
    exact ⟨h1, h2, h3⟩
  refine ⟨?_, by decide, hne, ?_, ?_, by decide, by decide⟩
  · intro cmdLine r h
    unfold ParseCommandLine at h
    dsimp only at h
    split_ifs at h
    cases h
    exact parseArgs_preserves
      (fun r => r.textColor ≠ keyColor ∧ r.outlineColor ≠ keyColor)
      argStep_colours _ defaultArgs ⟨by decide, by decide⟩
  · intro c
    exact hne _ (adjust_ne_key c)
  · intro v rest r hv
    exact parseArgs_colour_flags v rest r hv


/-! ## Velocity -/

/-- The tokens of a command line made of a word, the velocity flag and a value
without spaces and quotes. -/
theorem tokenize_word_flag_value (t a s : WString)
    (htne : t ≠ []) (hts : ' ' ∉ t) (htq : dquote ∉ t)
    (hane : a ≠ []) (has : ' ' ∉ a) (haq : dquote ∉ a)
    (hsne : s ≠ []) (hss : ' ' ∉ s) (hsq : dquote ∉ s) :
    tokenize (t ++ [' '] ++ a ++ [' '] ++ s) = [t, a, s] := by
  have d1 : ¬ (' ' = dquote) := by decide
  unfold tokenize
  rw [List.foldl_append, List.foldl_append, List.foldl_append, List.foldl_append,
    foldl_splitStep_word t htq hts]
  simp only [List.foldl_cons, List.foldl_nil, List.nil_append]
  have e1 : splitStep ⟨[], t, false⟩ ' ' = ⟨[t], [], false⟩ := by
    simp [splitStep, d1, htne]
  rw [e1, foldl_splitStep_word a haq has]
  have e2 : splitStep ⟨[t], [] ++ a, false⟩ ' ' = ⟨[t, a], [], false⟩ := by
    simp [splitStep, d1, hane]
  rw [e2, foldl_splitStep_word s hsq hss]
  simp [splitFinish, hsne]

/-- C9. When std::stof reads the comma-free token s as v: ParseVelocity s is
(0, -v); the flag -v or --velocity followed by s consumes s, whatever s begins
with, and stores (0, -v); and a command line made of a text word, the flag and
s yields that velocity, the word as text and every other field at its
default. -/
theorem single_value_velocity (s : WString) (v : FloatVal)
    (hc : ',' ∉ s) (hs : stof s = some v) :
    ParseVelocity s = ⟨FloatVal.zero, v.neg⟩ ∧
    (∀ a, a = "-v".toList ∨ a = "--velocity".toList → ∀ rest r,
      parseArgs (a :: s :: rest) r
        = parseArgs rest { r with velocity := ⟨FloatVal.zero, v.neg⟩ }) ∧
    (∀ a, a = "-v".toList ∨ a = "--velocity".toList → ∀ t : WString,
      t ≠ [] → ' ' ∉ t → dquote ∉ t → t.headD nul ≠ '-' → ' ' ∉ s → dquote ∉ s →
      ParseCommandLine (t ++ [' '] ++ a ++ [' '] ++ s)
        = .parsed { defaultArgs with text := t, velocity := ⟨FloatVal.zero, v.neg⟩ }) := by
  have pv : ParseVelocity s = ⟨FloatVal.zero, v.neg⟩ := by
    unfold ParseVelocity
    rw [wfind_zero, (indexOfChar_eq_none _ _).mpr hc, hs]
  have step : ∀ a, a = "-v".toList ∨ a = "--velocity".toList → ∀ rest r,
      parseArgs (a :: s :: rest) r
        = parseArgs rest { r with velocity := ⟨FloatVal.zero, v.neg⟩ } := by
    intro a ha rest r
    rw [parseArgs_velocity_flag a s rest r ha, pv]
  refine ⟨pv, step, ?_⟩
  intro a ha t htne hts htq hthd hss hsq
  have hsne : s ≠ [] := by
    intro h
    rw [h, stof, stoFloat_nil] at hs
    cases hs
  have hane : a ≠ [] ∧ ' ' ∉ a ∧ dquote ∉ a ∧ a ≠ "-h".toList ∧ a ≠ "--help".toList := by
    rcases ha with rfl | rfl <;> decide
  have hsh : s ≠ "-h".toList ∧ s ≠ "--help".toList := by
    have n1 : stof "-h".toList = none := by decide
    have n2 : stof "--help".toList = none := by decide
    constructor
    · intro h
      rw [h, n1] at hs
      cases hs
    · intro h
      rw [h, n2] at hs
      cases hs
  have hth : t ≠ "-h".toList ∧ t ≠ "--help".toList := by
    constructor <;>
    · intro h
      rw [h] at hthd
      exact hthd (by decide)
  unfold ParseCommandLine
  rw [tokenize_word_flag_value t a s htne hts htq hane.1 hane.2.1 hane.2.2.1 hsne hss hsq]
  have hno : ¬ ([t, a, s] = [] ∨ "-h".toList ∈ [t, a, s] ∨ "--help".toList ∈ [t, a, s]) := by
    simp only [List.mem_cons, List.mem_singleton, List.not_mem_nil, or_false, not_or]
    refine ⟨List.cons_ne_nil _ _, ⟨fun h => hth.1 h.symm, fun h => hane.2.2.2.1 h.symm,
      fun h => hsh.1 h.symm⟩, ⟨fun h => hth.2 h.symm, fun h => hane.2.2.2.2 h.symm,
      fun h => hsh.2 h.symm⟩⟩
  dsimp only
  rw [if_neg hno, parseArgs_cons, argStep_bare t _ _ htne hthd]
  dsimp only
  rw [step a ha, parseArgs.eq_1]

/-- Witness of C9: the token -1.5 is read as (0, 1.5), alone and on the command
line of the usage text. -/
theorem single_value_velocity_witness :
    ParseVelocity "-1.5".toList = ⟨FloatVal.zero, .fin false 3 (-1)⟩ ∧
    ParseCommandLine "Rising -v -1.5".toList
      = .parsed { defaultArgs with
          text := "Rising".toList, velocity := ⟨FloatVal.zero, .fin false 3 (-1)⟩ } := by
  have h := single_value_velocity "-1.5".toList (.fin true 3 (-1)) (by decide) (by decide)
  refine ⟨h.1, ?_⟩
  have h3 := h.2.2 "-v".toList (Or.inl rfl) "Rising".toList (by decide) (by decide)
    (by decide) (by decide) (by decide) (by decide)
  have e : "Rising".toList ++ [' '] ++ "-v".toList ++ [' '] ++ "-1.5".toList
      = "Rising -v -1.5".toList := by decide
  rw [e] at h3
  exact h3

/-- C10, counterexample. The inputs inf and nan do not begin with a number,
yet ParseVelocity does not return the zero velocity for them: std::stof reads
these words, so inf gives (0, -inf) and nan gives (0, nan). -/
theorem inf_velocity_not_zero :
    iswdigit ("inf".toList.headD nul) = false ∧
    ParseVelocity "inf".toList = ⟨FloatVal.zero, .inf true⟩ ∧
    ParseVelocity "inf".toList ≠ Velocity.zero ∧
    ParseVelocity "nan".toList = ⟨FloatVal.zero, .nan⟩ ∧
    ParseVelocity "nan".toList ≠ Velocity.zero := by
  refine ⟨by decide, by decide, by decide, by decide, by decide⟩

/-- C10, amended. For every string xs,ys with no comma in xs: when std::stof
reads xs as x and ys as y, ParseVelocity returns (x, y) with no sign change;
when xs or ys does not begin (after white space and a sign) with a decimal
digit, a point followed by a decimal digit, or the word inf or nan,
ParseVelocity returns the zero velocity. A comma-free string that does not
begin so gives the zero velocity as well. -/
theorem pair_velocity (xs ys : WString) (hx : ',' ∉ xs) :
    (∀ x y, stof xs = some x → stof ys = some y →
      ParseVelocity (xs ++ [','] ++ ys) = ⟨x, y⟩) ∧
    ((beginsWithFloat xs = false ∨ beginsWithFloat ys = false) →
      ParseVelocity (xs ++ [','] ++ ys) = Velocity.zero) ∧
    (∀ s : WString, ',' ∉ s → beginsWithFloat s = false →
      ParseVelocity s = Velocity.zero) := by
  have cut : ParseVelocity (xs ++ [','] ++ ys) =
      match stof xs, stof ys with
      | some x, some y => ⟨x, y⟩
      | _, _ => Velocity.zero := by
    have e0 : xs ++ [','] ++ ys = xs ++ ',' :: ys := by simp
    unfold ParseVelocity
    rw [e0, wfind_zero, indexOfChar_append _ _ _ hx]
    simp [substr, substrFrom]
  refine ⟨?_, ?_, ?_⟩
  · intro x y h1 h2
    rw [cut, h1, h2]
  · rintro (h | h)
    · have hn : stof xs = none := stoFloat_of_not_begins binary32 xs h
      rw [cut, hn]
    · have hn : stof ys = none := stoFloat_of_not_begins binary32 ys h
      rw [cut, hn]
      cases stof xs <;> rfl
  · intro s hs hf
    have hn : stof s = none := stoFloat_of_not_begins binary32 s hf
    unfold ParseVelocity
    rw [wfind_zero, (indexOfChar_eq_none _ _).mpr hs, hn]

/-- Witness of the amended C10: the literal 1.0,-1.0 is read as (1, -1), and
the literals of the claim that do not begin with a number give the zero
velocity. -/
theorem pair_velocity_witness :
    ParseVelocity "1.0,-1.0".toList = ⟨.fin false 1 0, .fin true 1 0⟩ ∧
    ParseVelocity "1.0,abc".toList = Velocity.zero ∧
    ParseVelocity ",2".toList = Velocity.zero ∧
    ParseVelocity "".toList = Velocity.zero ∧
    ParseVelocity "abc".toList = Velocity.zero :=
  ⟨(pair_velocity "1.0".toList "-1.0".toList (by decide)).1 _ _ (by decide) (by decide),
   (pair_velocity "1.0".toList "abc".toList (by decide)).2.1 (Or.inr (by decide)),
   (pair_velocity "".toList "2".toList (by decide)).2.1 (Or.inl (by decide)),
   (pair_velocity "".toList "".toList (by decide)).2.2 "".toList (by decide) (by decide),
   (pair_velocity "".toList "".toList (by decide)).2.2 "abc".toList (by decide) (by decide)⟩

/-! ## Durations -/

/-- The cast to DWORD of a double whose integer part lies in 0..2^32-1 is that
integer part. -/
theorem dwordOfFloat_of_trunc (x : FloatVal) (i : Int) (h : x.trunc = some i)
    (h0 : 0 ≤ i) (h1 : i < 2 ^ 32) : dwordOfFloat x = i.toNat := by
  unfold dwordOfFloat
  rw [h]
  have hr : -(2 ^ 63) ≤ i ∧ i < 2 ^ 63 := by constructor <;> omega
  simp only [hr, and_self, if_true]
  rw [Int.emod_eq_of_lt h0 h1]

/-- A duration flag followed by a token that does not begin with a minus sign
and that std::stod reads stores the product by 1000 cast to DWORD, and consumes
the token. -/
theorem parseArgs_duration_flags (v : WString) (sec : FloatVal) (rest : List WString)
    (r : CommandLineArgs) (hv : v.headD nul ≠ '-') (hs : stod v = some sec) :
    (∀ a, a = "-d".toList ∨ a = "--duration".toList →
      parseArgs (a :: v :: rest) r
        = parseArgs rest { r with
            displayDuration :=
              dwordOfFloat (FloatVal.mul binary64 sec (floatOfInt binary64 1000)) }) ∧
    (∀ a, a = "-e".toList ∨ a = "--ease".toList →
      parseArgs (a :: v :: rest) r
        = parseArgs rest { r with
            ease := true,
            easeOutDuration :=
              dwordOfFloat (FloatVal.mul binary64 sec (floatOfInt binary64 1000)) }) := by
  have hv2 : ¬ (List.head? v).getD nul = '-' := by simpa using hv
  refine ⟨?_, ?_⟩ <;>
  · rintro a (rfl | rfl) <;>
    · rw [parseArgs.eq_2]
      simp [String.toList, hv2, hs]

/-- A duration flag followed by a token that does not begin with a minus sign
and on which std::stod throws leaves the token to the next iteration. -/
theorem parseArgs_duration_malformed (v : WString) (rest : List WString)
    (r : CommandLineArgs) (hv : v.headD nul ≠ '-') (hs : stod v = none) :
    (∀ a, a = "-d".toList ∨ a = "--duration".toList →
      parseArgs (a :: v :: rest) r = parseArgs (v :: rest) r) ∧
    (∀ a, a = "-e".toList ∨ a = "--ease".toList →
      parseArgs (a :: v :: rest) r = parseArgs (v :: rest) { r with ease := true }) := by
  have hv2 : ¬ (List.head? v).getD nul = '-' := by simpa using hv
  refine ⟨?_, ?_⟩ <;>
  · rintro a (rfl | rfl) <;>
    · rw [parseArgs.eq_2]
      simp [String.toList, hv2, hs]

/-- A command line made of a text word, a flag and one value without spaces
and quotes is parsed by the option loop from the flag on, with the word as
text. -/
theorem parseCommandLine_word_flag_value (t a s : WString)
    (htne : t ≠ []) (hts : ' ' ∉ t) (htq : dquote ∉ t) (hthd : t.headD nul ≠ '-')
    (hane : a ≠ []) (has : ' ' ∉ a) (haq : dquote ∉ a)
    (hah : a ≠ "-h".toList ∧ a ≠ "--help".toList)
    (hsne : s ≠ []) (hss : ' ' ∉ s) (hsq : dquote ∉ s) (hshd : s.headD nul ≠ '-') :
    ParseCommandLine (t ++ [' '] ++ a ++ [' '] ++ s)
      = .parsed (parseArgs [a, s] { defaultArgs with text := t }) := by
  have hth : t ≠ "-h".toList ∧ t ≠ "--help".toList := by
    constructor <;>
    · intro h
      rw [h] at hthd
      exact hthd (by decide)
  have hsh : s ≠ "-h".toList ∧ s ≠ "--help".toList := by
    constructor <;>
    · intro h
      rw [h] at hshd
      exact hshd (by decide)
  unfold ParseCommandLine
  rw [tokenize_word_flag_value t a s htne hts htq hane has haq hsne hss hsq]
  have hno : ¬ ([t, a, s] = [] ∨ "-h".toList ∈ [t, a, s] ∨ "--help".toList ∈ [t, a, s]) := by
    simp only [List.mem_cons, List.mem_singleton, List.not_mem_nil, or_false, not_or]
    refine ⟨List.cons_ne_nil _ _, ⟨fun h => hth.1 h.symm, fun h => hah.1 h.symm,
      fun h => hsh.1 h.symm⟩, ⟨fun h => hth.2 h.symm, fun h => hah.2 h.symm,
      fun h => hsh.2 h.symm⟩⟩
  dsimp only
  rw [if_neg hno, parseArgs_cons, argStep_bare t _ _ htne hthd]

set_option maxRecDepth 100000 in
/-- C11, counterexample. The command line [x -d 0.0019] gives a display
duration of 1 ms, the product 1.9 truncated, whereas the nearest integer to
1.9 is 2. And the display duration of [x -d 5000000] is a DWORD, below 2^32,
whereas the nearest integer to 5000000 * 1000 is not. -/
theorem duration_is_truncated :
    ParseCommandLine "x -d 0.0019".toList
      = .parsed { defaultArgs with text := "x".toList, displayDuration := 1 } ∧
    nearestMillis 19 10000 = 2 ∧
    (∃ r, ParseCommandLine "x -d 5000000".toList = .parsed r ∧
      r.displayDuration < 2 ^ 32 ∧ 2 ^ 32 ≤ nearestMillis 5000000 1) := by
  refine ⟨by decide!, by decide,
    ⟨{ defaultArgs with text := "x".toList, displayDuration := 705032704 },
      by decide!, by decide, by decide⟩⟩

/-- C11, amended. When the token v after a duration flag does not begin with a
minus sign, std::stod reads it as sec, and the integer part (toward zero) i of
the double product sec * 1000 lies in 0..2^32-1, the flag -d or --duration
consumes v and stores i as displayDuration, and the flag -e or --ease consumes
v and stores i as easeOutDuration (and sets ease); a command line made of a
text word, the flag and v yields that duration, the word as text and every
other field at its default. The product is truncated, not rounded. -/
theorem duration_value (v : WString) (sec : FloatVal) (i : Int)
    (hv : v.headD nul ≠ '-') (hs : stod v = some sec)
    (ht : (FloatVal.mul binary64 sec (floatOfInt binary64 1000)).trunc = some i)
    (h0 : 0 ≤ i) (h1 : i < 2 ^ 32) :
    (∀ a, a = "-d".toList ∨ a = "--duration".toList → ∀ rest r,
      parseArgs (a :: v :: rest) r
        = parseArgs rest { r with displayDuration := i.toNat }) ∧
    (∀ a, a = "-e".toList ∨ a = "--ease".toList → ∀ rest r,
      parseArgs (a :: v :: rest) r
        = parseArgs rest { r with ease := true, easeOutDuration := i.toNat }) ∧
    (∀ a, a = "-d".toList ∨ a = "--duration".toList → ∀ t : WString,
      t ≠ [] → ' ' ∉ t → dquote ∉ t → t.headD nul ≠ '-' → ' ' ∉ v → dquote ∉ v →
      ParseCommandLine (t ++ [' '] ++ a ++ [' '] ++ v)
        = .parsed { defaultArgs with text := t, displayDuration := i.toNat }) ∧
    (∀ a, a = "-e".toList ∨ a = "--ease".toList → ∀ t : WString,
      t ≠ [] → ' ' ∉ t → dquote ∉ t → t.headD nul ≠ '-' → ' ' ∉ v → dquote ∉ v →
      ParseCommandLine (t ++ [' '] ++ a ++ [' '] ++ v)
        = .parsed { defaultArgs with
            text := t, ease := true, easeOutDuration := i.toNat }) := by
  have hd := dwordOfFloat_of_trunc _ i ht h0 h1
  have hvne : v ≠ [] := by
    intro h
    rw [h, stod, stoFloat_nil] at hs
    cases hs
  have stepd : ∀ a, a = "-d".toList ∨ a = "--duration".toList → ∀ rest r,
      parseArgs (a :: v :: rest) r
        = parseArgs rest { r with displayDuration := i.toNat } := by
    intro a ha rest r
    rw [(parseArgs_duration_flags v sec rest r hv hs).1 a ha, hd]
  have stepe : ∀ a, a = "-e".toList ∨ a = "--ease".toList → ∀ rest r,
      parseArgs (a :: v :: rest) r
        = parseArgs rest { r with ease := true, easeOutDuration := i.toNat } := by
    intro a ha rest r
    rw [(parseArgs_duration_flags v sec rest r hv hs).2 a ha, hd]
  refine ⟨stepd, stepe, ?_, ?_⟩
  · intro a ha t htne hts htq hthd hvs hvq
    have hka : a ≠ [] ∧ ' ' ∉ a ∧ dquote ∉ a ∧ a ≠ "-h".toList ∧ a ≠ "--help".toList := by
      rcases ha with rfl | rfl <;> decide
    rw [parseCommandLine_word_flag_value t a v htne hts htq hthd hka.1 hka.2.1 hka.2.2.1
      hka.2.2.2 hvne hvs hvq hv, stepd a ha, parseArgs.eq_1]
  · intro a ha t htne hts htq hthd hvs hvq
    have hka : a ≠ [] ∧ ' ' ∉ a ∧ dquote ∉ a ∧ a ≠ "-h".toList ∧ a ≠ "--help".toList := by
      rcases ha with rfl | rfl <;> decide
    rw [parseCommandLine_word_flag_value t a v htne hts htq hthd hka.1 hka.2.1 hka.2.2.1
      hka.2.2.2 hvne hvs hvq hv, stepe a ha, parseArgs.eq_1]

set_option maxRecDepth 100000 in
/-- Witness of the amended C11: [-d 5] gives 5000 ms, [-e 2] gives 2000 ms and
[x -d 0.0019] gives 1 ms. -/
theorem duration_value_witness :
    parseArgs ["-d".toList, "5".toList] defaultArgs
      = { defaultArgs with displayDuration := 5000 } ∧
    parseArgs ["-e".toList, "2".toList] defaultArgs
      = { defaultArgs with ease := true, easeOutDuration := 2000 } ∧
    ParseCommandLine "x -d 0.0019".toList
      = .parsed { defaultArgs with text := "x".toList, displayDuration := 1 } := by
  have h5 := (duration_value "5".toList (.fin false 5 0) 5000 (by decide) (by decide!)
    (by decide!) (by decide) (by decide)).1 "-d".toList (Or.inl rfl) [] defaultArgs
  have h2 := (duration_value "2".toList (.fin false 1 1) 2000 (by decide) (by decide!)
    (by decide!) (by decide) (by decide)).2.1 "-e".toList (Or.inl rfl) [] defaultArgs
  have hs : stod "0.0019".toList = some (roundRat binary64 false 19 10000) := by decide!
  have h1 := (duration_value "0.0019".toList (roundRat binary64 false 19 10000) 1
    (by decide) hs (by decide!) (by decide) (by decide)).2.2.1 "-d".toList (Or.inl rfl)
    "x".toList (by decide) (by decide) (by decide) (by decide) (by decide) (by decide)
  have e : "x".toList ++ [' '] ++ "-d".toList ++ [' '] ++ "0.0019".toList
      = "x -d 0.0019".toList := by decide
  rw [parseArgs.eq_1] at h5
  rw [parseArgs.eq_1] at h2
  rw [e] at h1
  exact ⟨h5, h2, h1⟩

/-- C12, counterexample. In [hello -d abc] the token abc is not consumed by -d
and becomes the text, so the result differs from that of [hello -d]. -/
theorem malformed_duration_becomes_text :
    ParseCommandLine "hello -d abc".toList
      = .parsed { defaultArgs with text := "abc".toList } ∧
    ParseCommandLine "hello -d".toList
      = .parsed { defaultArgs with text := "hello".toList } := by
  refine ⟨by decide, by decide⟩

/-- C12, amended. Let the token v after a duration flag be not empty, not begin
with a minus sign and not begin (after white space and a sign) with a decimal
digit, a point followed by a decimal digit, or the word inf or nan. Then the
option loop at the flag goes on at v: -d and --duration leave displayDuration
and every other field as they were, -e and --ease only set the ease flag and
leave easeOutDuration as it was; v is then read as a bare token and becomes the
text, and the loop goes on after v. A command line made of a text word, the
flag and v yields v as text and every other field at its default (ease set for
-e and --ease). -/
theorem malformed_duration (v : WString) (hne : v ≠ []) (hv : v.headD nul ≠ '-')
    (hs : beginsWithFloat v = false) :
    (∀ a, a = "-d".toList ∨ a = "--duration".toList → ∀ rest r,
      parseArgs (a :: v :: rest) r = parseArgs (v :: rest) r ∧
      parseArgs (a :: v :: rest) r = parseArgs rest { r with text := v }) ∧
    (∀ a, a = "-e".toList ∨ a = "--ease".toList → ∀ rest r,
      parseArgs (a :: v :: rest) r = parseArgs (v :: rest) { r with ease := true } ∧
      parseArgs (a :: v :: rest) r = parseArgs rest { r with ease := true, text := v }) ∧
    (∀ a, a = "-d".toList ∨ a = "--duration".toList → ∀ t : WString,
      t ≠ [] → ' ' ∉ t → dquote ∉ t → t.headD nul ≠ '-' → ' ' ∉ v → dquote ∉ v →
      ParseCommandLine (t ++ [' '] ++ a ++ [' '] ++ v)
        = .parsed { defaultArgs with text := v }) ∧
    (∀ a, a = "-e".toList ∨ a = "--ease".toList → ∀ t : WString,
      t ≠ [] → ' ' ∉ t → dquote ∉ t → t.headD nul ≠ '-' → ' ' ∉ v → dquote ∉ v →
      ParseCommandLine (t ++ [' '] ++ a ++ [' '] ++ v)
        = .parsed { defaultArgs with ease := true, text := v }) := by
  have hn : stod v = none := stoFloat_of_not_begins binary64 v hs
  have bare : ∀ rest r, parseArgs (v :: rest) r = parseArgs rest { r with text := v } := by
    intro rest r
    rw [parseArgs_cons, argStep_bare v rest r hne hv]
  have stepd : ∀ a, a = "-d".toList ∨ a = "--duration".toList → ∀ rest r,
      parseArgs (a :: v :: rest) r = parseArgs (v :: rest) r ∧
      parseArgs (a :: v :: rest) r = parseArgs rest { r with text := v } := by
    intro a ha rest r
    have h := (parseArgs_duration_malformed v rest r hv hn).1 a ha
    exact ⟨h, by rw [h, bare]⟩
  have stepe : ∀ a, a = "-e".toList ∨ a = "--ease".toList → ∀ rest r,
      parseArgs (a :: v :: rest) r = parseArgs (v :: rest) { r with ease := true } ∧
      parseArgs (a :: v :: rest) r
        = parseArgs rest { r with ease := true, text := v } := by
    intro a ha rest r
    have h := (parseArgs_duration_malformed v rest r hv hn).2 a ha
    exact ⟨h, by rw [h, bare]⟩
  refine ⟨stepd, stepe, ?_, ?_⟩
  · intro a ha t htne hts htq hthd hvs hvq
    have hka : a ≠ [] ∧ ' ' ∉ a ∧ dquote ∉ a ∧ a ≠ "-h".toList ∧ a ≠ "--help".toList := by
      rcases ha with rfl | rfl <;> decide
    rw [parseCommandLine_word_flag_value t a v htne hts htq hthd hka.1 hka.2.1 hka.2.2.1
      hka.2.2.2 hne hvs hvq hv, (stepd a ha _ _).2, parseArgs.eq_1]
  · intro a ha t htne hts htq hthd hvs hvq
    have hka : a ≠ [] ∧ ' ' ∉ a ∧ dquote ∉ a ∧ a ≠ "-h".toList ∧ a ≠ "--help".toList := by
      rcases ha with rfl | rfl <;> decide
    rw [parseCommandLine_word_flag_value t a v htne hts htq hthd hka.1 hka.2.1 hka.2.2.1
      hka.2.2.2 hne hvs hvq hv, (stepe a ha _ _).2, parseArgs.eq_1]

/-- Witness of the amended C12 at the token abc: after -d at the loop step, and
on the command lines [hello -d abc] and [hello -e abc]. -/
theorem malformed_duration_witness :
    parseArgs ["-d".toList, "abc".toList] defaultArgs
      = parseArgs [] { defaultArgs with text := "abc".toList } ∧
    ParseCommandLine "hello -d abc".toList
      = .parsed { defaultArgs with text := "abc".toList } ∧
    ParseCommandLine "hello -e abc".toList
      = .parsed { defaultArgs with ease := true, text := "abc".toList } := by
  have h := malformed_duration "abc".toList (by decide) (by decide) (by decide)
  have hd := h.2.2.1 "-d".toList (Or.inl rfl) "hello".toList (by decide) (by decide)
    (by decide) (by decide) (by decide) (by decide)
  have he := h.2.2.2 "-e".toList (Or.inl rfl) "hello".toList (by decide) (by decide)
    (by decide) (by decide) (by decide) (by decide)
  have e1 : "hello".toList ++ [' '] ++ "-d".toList ++ [' '] ++ "abc".toList
      = "hello -d abc".toList := by decide
  have e2 : "hello".toList ++ [' '] ++ "-e".toList ++ [' '] ++ "abc".toList
      = "hello -e abc".toList := by decide
  rw [e1] at hd
  rw [e2] at he
  exact ⟨(h.1 "-d".toList (Or.inl rfl) [] defaultArgs).2, hd, he⟩

/-! ## The timer handler: opacity and end of life -/

/-- UpdateWindowPosition does not touch the opacity. -/
theorem UpdateWindowPosition_alpha (cfg : Settings) (st : Presentation) (c : POINT)
    (t : Nat) (s : SIZE) :
    (UpdateWindowPosition cfg st c t s).currentAlpha = st.currentAlpha := rfl

/-- Between the end of the display and the end of the fade, when the sum of the
two durations fits a DWORD, no operation of the opacity expression wraps and
the cast to BYTE loses nothing. -/
theorem fadeAlpha_exact (D E t : Nat) (hsum : D + E < 2 ^ 32) (h1 : D < t)
    (h2 : t ≤ D + E) :
    fadeAlpha D E t = some (255 * (D + E - t) / E) ∧ 255 * (D + E - t) / E < 255 := by
  have hE : E ≠ 0 := by omega
  have hq : 255 * (D + E - t) / E < 255 := by
    apply Nat.div_lt_of_lt_mul
    have : D + E - t < E := by omega
    calc 255 * (D + E - t) < 255 * E := by omega
      _ = E * 255 := Nat.mul_comm _ _
  refine ⟨?_, hq⟩
  unfold fadeAlpha
  have e1 : (D + E) % 2 ^ 32 = D + E := Nat.mod_eq_of_lt hsum
  have e2 : (D + E + 2 ^ 64 - t) % 2 ^ 64 = D + E - t := by omega
  have e3 : (255 * (D + E - t)) % 2 ^ 64 = 255 * (D + E - t) := by omega
  have e4 : 255 * (D + E - t) / E % 256 = 255 * (D + E - t) / E :=
    Nat.mod_eq_of_lt (Nat.lt_trans hq (by decide))
  simp only [e1, e2, e3, e4, hE, if_false]

/-- A tick no later than the end of the display only repositions the window. -/
theorem timer_visible (cfg : Settings) (st : Presentation) (inp : TickInput)
    (h : inp.elapsedTime ≤ cfg.displayDuration) :
    WindowProcTimer cfg st inp
      = .running (UpdateWindowPosition cfg st inp.cursorPos inp.elapsedTimeUpdate
          inp.textSize) := by
  unfold WindowProcTimer
  rw [if_neg (by omega)]

/-- A tick during the fade sets the opacity to the exact quotient. -/
theorem timer_fading (cfg : Settings) (st : Presentation) (inp : TickInput)
    (hease : cfg.useEaseOut = true)
    (hsum : cfg.displayDuration + cfg.easeOutDuration < 2 ^ 32)
    (h1 : cfg.displayDuration < inp.elapsedTime)
    (h2 : inp.elapsedTime ≤ cfg.displayDuration + cfg.easeOutDuration) :
    WindowProcTimer cfg st inp
      = .running (UpdateWindowPosition cfg
          { st with currentAlpha :=
              255 * (cfg.displayDuration + cfg.easeOutDuration - inp.elapsedTime)
                / cfg.easeOutDuration }
          inp.cursorPos inp.elapsedTimeUpdate inp.textSize) := by
  unfold WindowProcTimer
  have e1 : (cfg.displayDuration + cfg.easeOutDuration) % 2 ^ 32
      = cfg.displayDuration + cfg.easeOutDuration := Nat.mod_eq_of_lt hsum
  rw [if_pos h1, if_neg (by simp [hease]), e1, if_neg (by omega),
    (fadeAlpha_exact _ _ _ hsum h1 h2).1]

/-- A tick after the end of the fade destroys the window, whether or not the
DWORD sum of the durations wraps. -/
theorem timer_after_fade (cfg : Settings) (st : Presentation) (inp : TickInput)
    (h : cfg.displayDuration + cfg.easeOutDuration < inp.elapsedTime) :
    WindowProcTimer cfg st inp = .destroyed := by
  unfold WindowProcTimer
  have hle : (cfg.displayDuration + cfg.easeOutDuration) % 2 ^ 32
      ≤ cfg.displayDuration + cfg.easeOutDuration := Nat.mod_le _ _
  rw [if_pos (by omega)]
  by_cases he : cfg.useEaseOut = false
  · rw [if_pos he]
  · rw [if_neg he, if_pos (by omega)]

/-- The ticks of a list followed by one more tick. -/
theorem runTimer_append (cfg : Settings) (st : Presentation) (pre : List TickInput)
    (last : TickInput) :
    runTimer cfg st (pre ++ [last]) =
      match runTimer cfg st pre with
      | .running st2 => WindowProcTimer cfg st2 last
      | out => out := by
  induction pre generalizing st with
  | nil =>
    simp only [List.nil_append, runTimer]
    cases WindowProcTimer cfg st last <;> rfl
  | cons i is ih =>
    simp only [List.cons_append, runTimer]
    cases h : WindowProcTimer cfg st i with
    | destroyed => rfl
    | divideByZero => rfl
    | running st2 => exact ih st2

/-- Ticks that all come no later than the end of the display leave the window
alive with its opacity untouched. -/
theorem runTimer_visible (cfg : Settings) (pre : List TickInput) :
    ∀ st : Presentation, (∀ i ∈ pre, i.elapsedTime ≤ cfg.displayDuration) →
      ∃ st2, runTimer cfg st pre = .running st2 ∧ st2.currentAlpha = st.currentAlpha := by
  induction pre with
  | nil => exact fun st _ => ⟨st, rfl, rfl⟩
  | cons i is ih =>
    intro st h
    have hi := h i (by simp)
    obtain ⟨st2, e, ha⟩ := ih
      (UpdateWindowPosition cfg st i.cursorPos i.elapsedTimeUpdate i.textSize)
      (fun j hj => h j (by simp [hj]))
    refine ⟨st2, ?_, by rw [ha, UpdateWindowPosition_alpha]⟩
    simp only [runTimer, timer_visible cfg st i hi]
    exact e

/-- Ticks that all come no later than the end of the fade leave the window
alive. -/
theorem runTimer_alive (cfg : Settings) (hease : cfg.useEaseOut = true)
    (hsum : cfg.displayDuration + cfg.easeOutDuration < 2 ^ 32) (pre : List TickInput) :
    ∀ st : Presentation,
      (∀ i ∈ pre, i.elapsedTime ≤ cfg.displayDuration + cfg.easeOutDuration) →
      ∃ st2, runTimer cfg st pre = .running st2 := by
  induction pre with
  | nil => exact fun st _ => ⟨st, rfl⟩
  | cons i is ih =>
    intro st h
    have hi := h i (by simp)
    by_cases hv : i.elapsedTime ≤ cfg.displayDuration
    · obtain ⟨st2, e⟩ := ih
        (UpdateWindowPosition cfg st i.cursorPos i.elapsedTimeUpdate i.textSize)
        (fun j hj => h j (by simp [hj]))
      refine ⟨st2, ?_⟩
      simp only [runTimer, timer_visible cfg st i hv]
      exact e
    · obtain ⟨st2, e⟩ := ih _ (fun j hj => h j (by simp [hj]))
      refine ⟨st2, ?_⟩
      simp only [runTimer, timer_fading cfg st i hease hsum (by omega) hi]
      exact e

/-- C13. With the fade enabled and D + E below 2^32, run the ticks of a list
whose last tick is the latest, from a state of opacity 255. If the last tick
comes at t <= D the opacity is 255; if it comes at D < t <= D + E the opacity
is the floor of 255 * (D + E - t) / E, a value below 255, so that no operation
wraps and the cast to BYTE loses nothing. -/
theorem opacity_of_elapsed (cfg : Settings) (st0 : Presentation) (pre : List TickInput)
    (last : TickInput) (hease : cfg.useEaseOut = true)
    (hsum : cfg.displayDuration + cfg.easeOutDuration < 2 ^ 32)
    (h255 : st0.currentAlpha = 255)
    (hmono : ∀ i ∈ pre, i.elapsedTime ≤ last.elapsedTime) :
    (last.elapsedTime ≤ cfg.displayDuration →
      ∃ st, runTimer cfg st0 (pre ++ [last]) = .running st ∧ st.currentAlpha = 255) ∧
    (cfg.displayDuration < last.elapsedTime →
      last.elapsedTime ≤ cfg.displayDuration + cfg.easeOutDuration →
      ∃ st, runTimer cfg st0 (pre ++ [last]) = .running st ∧
        st.currentAlpha
          = 255 * (cfg.displayDuration + cfg.easeOutDuration - last.elapsedTime)
              / cfg.easeOutDuration ∧
        st.currentAlpha ≤ 255) := by
  constructor
  · intro hl
    obtain ⟨st2, e, ha⟩ := runTimer_visible cfg pre st0
      (fun i hi => Nat.le_trans (hmono i hi) hl)
    refine ⟨UpdateWindowPosition cfg st2 last.cursorPos last.elapsedTimeUpdate last.textSize,
      ?_, ?_⟩
    · rw [runTimer_append, e]
      exact timer_visible cfg st2 last hl
    · rw [UpdateWindowPosition_alpha, ha, h255]
  · intro h1 h2
    obtain ⟨st2, e⟩ := runTimer_alive cfg hease hsum pre st0
      (fun i hi => Nat.le_trans (hmono i hi) h2)
    refine ⟨UpdateWindowPosition cfg
      { st2 with currentAlpha :=
          255 * (cfg.displayDuration + cfg.easeOutDuration - last.elapsedTime)
            / cfg.easeOutDuration }
      last.cursorPos last.elapsedTimeUpdate last.textSize, ?_, ?_, ?_⟩
    · rw [runTimer_append, e]
      exact timer_fading cfg st2 last hease hsum h1 h2
    · rfl
    · rw [UpdateWindowPosition_alpha]
      exact Nat.le_of_lt (fadeAlpha_exact _ _ _ hsum h1 h2).2

/-- Witness of C13 with D = 3000 and E = 1000: after ticks at 0 and 3000 the
opacity is 255; after ticks at 0 and 3500 it is 127. -/
theorem opacity_of_elapsed_witness :
    (∃ st, runTimer fadeSettings startState ([tickAt 0] ++ [tickAt 3000]) = .running st ∧
      st.currentAlpha = 255) ∧
    (∃ st, runTimer fadeSettings startState ([tickAt 0] ++ [tickAt 3500]) = .running st ∧
      st.currentAlpha = 127 ∧ st.currentAlpha ≤ 255) :=
  ⟨(opacity_of_elapsed fadeSettings startState [tickAt 0] (tickAt 3000) rfl (by decide) rfl
      (by decide)).1 (by decide),
   (opacity_of_elapsed fadeSettings startState [tickAt 0] (tickAt 3500) rfl (by decide) rfl
      (by decide)).2 (by decide) (by decide)⟩

/-- C14, counterexample. With D = 3000 and E = 1000 the tick at exactly 4000
does not destroy the window: the handler returns with the window alive and the
opacity 0. -/
theorem tick_at_end_of_fade_alive :
    WindowProcTimer fadeSettings startState (tickAt 4000) ≠ .destroyed ∧
    WindowProcTimer fadeSettings startState (tickAt 4000)
      = .running (UpdateWindowPosition fadeSettings { startState with currentAlpha := 0 }
          (tickAt 4000).cursorPos (tickAt 4000).elapsedTimeUpdate (tickAt 4000).textSize) := by
  refine ⟨by decide, by decide⟩

/-- C14, amended. With the fade enabled, a tick at any elapsed time t > D + E
destroys the window, whether or not the DWORD sum wraps; a tick at t = D + E
exactly (with E > 0 and the sum below 2^32) leaves the window alive with
opacity 0. -/
theorem end_of_life (cfg : Settings) (st : Presentation) (inp : TickInput)
    (hease : cfg.useEaseOut = true) :
    (cfg.displayDuration + cfg.easeOutDuration < inp.elapsedTime →
      WindowProcTimer cfg st inp = .destroyed) ∧
    (inp.elapsedTime = cfg.displayDuration + cfg.easeOutDuration →
      0 < cfg.easeOutDuration → cfg.displayDuration + cfg.easeOutDuration < 2 ^ 32 →
      ∃ st2, WindowProcTimer cfg st inp = .running st2 ∧ st2.currentAlpha = 0) := by
  refine ⟨timer_after_fade cfg st inp, ?_⟩
  intro ht hE hsum
  refine ⟨_, timer_fading cfg st inp hease hsum (by omega) (by omega), ?_⟩
  rw [UpdateWindowPosition_alpha]
  simp [ht]

/-- Witness of the amended C14 with D = 3000 and E = 1000: the tick at 4001
destroys the window. -/
theorem end_of_life_witness :
    WindowProcTimer fadeSettings startState (tickAt 4001) = .destroyed :=
  (end_of_life fadeSettings startState (tickAt 4001) rfl).1 (by decide)

/-! ## The timer handler: safety of the fade expression -/

/-- The cast to DWORD yields a value below 2^32. -/
theorem dwordOfFloat_lt (x : FloatVal) : dwordOfFloat x < 2 ^ 32 := by
  unfold dwordOfFloat
  split
  · split
    · have h1 : (0 : Int) < 2 ^ 32 := by decide
      have := Int.emod_lt_of_pos ‹Int› h1
      have := Int.emod_nonneg ‹Int› (Int.ne_of_gt h1)
      omega
    · decide
  · decide

/-- An iteration of the option loop keeps both durations below 2^32. -/
theorem argStep_durations (a : WString) (rest : List WString) (r : CommandLineArgs)
    (hI : r.displayDuration < 2 ^ 32 ∧ r.easeOutDuration < 2 ^ 32) :
    (argStep a rest r).2.displayDuration < 2 ^ 32 ∧
      (argStep a rest r).2.easeOutDuration < 2 ^ 32 := by
  rcases argStep_cases a rest r with
    ⟨_, h | h | h | h | h | h⟩ | ⟨v, rest2, _, _, h | h | h | h | ⟨sec, h⟩ | ⟨sec, h⟩⟩
  all_goals rw [h]
  all_goals
    first
    | exact hI
    | exact ⟨dwordOfFloat_lt _, hI.2⟩
    | exact ⟨hI.1, dwordOfFloat_lt _⟩

/-- For DWORD durations, the fade expression is reached only during the fade
proper, where nothing wraps and the divisor is positive. -/
theorem fadeReached_bounds (cfg : Settings) (t : Nat)
    (hD : cfg.displayDuration < 2 ^ 32) (hE : cfg.easeOutDuration < 2 ^ 32)
    (h : fadeReached cfg t) :
    cfg.displayDuration < t ∧ t ≤ cfg.displayDuration + cfg.easeOutDuration ∧
    cfg.displayDuration + cfg.easeOutDuration < 2 ^ 32 ∧ 0 < cfg.easeOutDuration := by
  obtain ⟨h1, _, h3⟩ := h
  omega

/-- C19. For the durations of any options record the parser returns (both
below 2^32, zero included) and any tick: the handler never divides by zero;
it reaches the opacity expression only when D < t <= D + E with the sum not
wrapping, which forces E > 0, and then the subtraction does not wrap and the
stored opacity is the exact quotient; in every other case the window is
destroyed or the opacity is left untouched. -/
theorem fade_division_safe (cmdLine : WString) (r : CommandLineArgs)
    (h : ParseCommandLine cmdLine = .parsed r) (st : Presentation) (inp : TickInput) :
    (r.displayDuration < 2 ^ 32 ∧ r.easeOutDuration < 2 ^ 32) ∧
    WindowProcTimer (settingsOf r) st inp ≠ .divideByZero ∧
    (fadeReached (settingsOf r) inp.elapsedTime →
      r.displayDuration < inp.elapsedTime ∧
      inp.elapsedTime ≤ r.displayDuration + r.easeOutDuration ∧
      r.displayDuration + r.easeOutDuration < 2 ^ 32 ∧ 0 < r.easeOutDuration ∧
      fadeAlpha r.displayDuration r.easeOutDuration inp.elapsedTime
        = some (255 * (r.displayDuration + r.easeOutDuration - inp.elapsedTime)
            / r.easeOutDuration) ∧
      WindowProcTimer (settingsOf r) st inp
        = .running (UpdateWindowPosition (settingsOf r)
            { st with currentAlpha :=
                255 * (r.displayDuration + r.easeOutDuration - inp.elapsedTime)
                  / r.easeOutDuration }
            inp.cursorPos inp.elapsedTimeUpdate inp.textSize)) ∧
    (¬ fadeReached (settingsOf r) inp.elapsedTime →
      WindowProcTimer (settingsOf r) st inp = .destroyed ∨
      (WindowProcTimer (settingsOf r) st inp
          = .running (UpdateWindowPosition (settingsOf r) st inp.cursorPos
              inp.elapsedTimeUpdate inp.textSize) ∧
        (UpdateWindowPosition (settingsOf r) st inp.cursorPos inp.elapsedTimeUpdate
          inp.textSize).currentAlpha = st.currentAlpha)) := by
  have hb : r.displayDuration < 2 ^ 32 ∧ r.easeOutDuration < 2 ^ 32 := by
    unfold ParseCommandLine at h
    dsimp only at h
    split_ifs at h
    cases h
    exact parseArgs_preserves
      (fun r => r.displayDuration < 2 ^ 32 ∧ r.easeOutDuration < 2 ^ 32)
      argStep_durations _ defaultArgs ⟨by decide, by decide⟩
  have hreach : fadeReached (settingsOf r) inp.elapsedTime →
      r.displayDuration < inp.elapsedTime ∧
      inp.elapsedTime ≤ r.displayDuration + r.easeOutDuration ∧
      r.displayDuration + r.easeOutDuration < 2 ^ 32 ∧ 0 < r.easeOutDuration ∧
      fadeAlpha r.displayDuration r.easeOutDuration inp.elapsedTime
        = some (255 * (r.displayDuration + r.easeOutDuration - inp.elapsedTime)
            / r.easeOutDuration) ∧
      WindowProcTimer (settingsOf r) st inp
        = .running (UpdateWindowPosition (settingsOf r)
            { st with currentAlpha :=
                255 * (r.displayDuration + r.easeOutDuration - inp.elapsedTime)
                  / r.easeOutDuration }
            inp.cursorPos inp.elapsedTimeUpdate inp.textSize) := by
    intro hf
    obtain ⟨b1, b2, b3, b4⟩ := fadeReached_bounds (settingsOf r) inp.elapsedTime hb.1 hb.2 hf
    exact ⟨b1, b2, b3, b4, (fadeAlpha_exact _ _ _ b3 b1 b2).1,
      timer_fading (settingsOf r) st inp hf.2.1 b3 b1 b2⟩
  have hother : ¬ fadeReached (settingsOf r) inp.elapsedTime →
      WindowProcTimer (settingsOf r) st inp = .destroyed ∨
      (WindowProcTimer (settingsOf r) st inp
          = .running (UpdateWindowPosition (settingsOf r) st inp.cursorPos
              inp.elapsedTimeUpdate inp.textSize) ∧
        (UpdateWindowPosition (settingsOf r) st inp.cursorPos inp.elapsedTimeUpdate
          inp.textSize).currentAlpha = st.currentAlpha) := by
    intro hn
    by_cases h1 : (settingsOf r).displayDuration < inp.elapsedTime
    · left
      unfold WindowProcTimer
      rw [if_pos h1]
      by_cases h2 : (settingsOf r).useEaseOut = false
      · rw [if_pos h2]
      · rw [if_neg h2]
        by_cases h3 : ((settingsOf r).displayDuration + (settingsOf r).easeOutDuration)
            % 2 ^ 32 < inp.elapsedTime
        · rw [if_pos h3]
        · exact absurd ⟨h1, by simpa using h2, h3⟩ hn
    · right
      exact ⟨timer_visible _ st inp (by omega), rfl⟩
  refine ⟨hb, ?_, hreach, hother⟩
  intro hz
  by_cases hf : fadeReached (settingsOf r) inp.elapsedTime
  · rw [(hreach hf).2.2.2.2.2] at hz
    cases hz
  · rcases hother hf with h1 | ⟨h1, _⟩
    · rw [h1] at hz
      cases hz
    · rw [h1] at hz
      cases hz

set_option maxRecDepth 100000 in
/-- Witness of C19 at the command line [x -e 0], whose fade duration is 0: the
tick at 3001 does not divide by zero, it destroys the window. -/
theorem fade_division_safe_witness :
    ParseCommandLine "x -e 0".toList
      = .parsed { defaultArgs with text := "x".toList, ease := true, easeOutDuration := 0 } ∧
    WindowProcTimer
      (settingsOf { defaultArgs with text := "x".toList, ease := true, easeOutDuration := 0 })
      startState (tickAt 3001) ≠ .divideByZero ∧
    WindowProcTimer
      (settingsOf { defaultArgs with text := "x".toList, ease := true, easeOutDuration := 0 })
      startState (tickAt 3001) = .destroyed :=
  ⟨by decide!,
   (fade_division_safe "x -e 0".toList
      { defaultArgs with text := "x".toList, ease := true, easeOutDuration := 0 }
      (by decide!) startState (tickAt 3001)).2.1,
   by decide⟩

set_option maxRecDepth 100000 in
/-- The durations of [x -d 4000000 -e 4000000] are 4000000000 ms each, and
their DWORD sum wraps: the first tick after the display destroys the window
without reaching the opacity expression. -/
theorem wrapping_durations_example :
    ParseCommandLine "x -d 4000000 -e 4000000".toList
      = .parsed { defaultArgs with
          text := "x".toList, ease := true, easeOutDuration := 4000000000,
          displayDuration := 4000000000 } ∧
    ¬ fadeReached
      (settingsOf { defaultArgs with
          text := "x".toList, ease := true, easeOutDuration := 4000000000,
          displayDuration := 4000000000 }) 4000000001 ∧
    WindowProcTimer
      (settingsOf { defaultArgs with
          text := "x".toList, ease := true, easeOutDuration := 4000000000,
          displayDuration := 4000000000 })
      startState (tickAt 4000000001) = .destroyed := by
  refine ⟨by decide!, by decide, by decide⟩

/-! ## The forced block flag of the relaunch -/

/-- C15 (defect in the code, the same as in C1: the text is passed as a bare
token). The command line [-t -t] parses to the text -t with block = false; in
the relaunch arguments the bare token -t is read as the text flag and consumes
the forced -b, so the relaunched parse has the text -b and block = false
again. -/
theorem relaunch_loses_block_flag :
    ParseCommandLine "-t -t".toList = .parsed { defaultArgs with text := "-t".toList } ∧
    reparse { defaultArgs with text := "-t".toList }
      = some (.parsed { defaultArgs with text := "-b".toList }) ∧
    ({ defaultArgs with text := "-b".toList } : CommandLineArgs).block = false := by
  refine ⟨by decide, by decide!, rfl⟩

/-! ## Integer colours -/

/-- The bound of struct Color: every channel is a BYTE. -/
theorem byteOfInt_lt (i : Int) : byteOfInt i < 256 := by
  unfold byteOfInt
  have h1 : (0 : Int) < 256 := by decide
  have := Int.emod_lt_of_pos i h1
  have := Int.emod_nonneg i (Int.ne_of_gt h1)
  omega

/-- The cast of a float to BYTE yields a value below 256. -/
theorem byteOfFloat_lt (x : FloatVal) : byteOfFloat x < 256 := by
  unfold byteOfFloat
  split
  · split
    · have h1 : (0 : Int) < 256 := by decide
      have := Int.emod_lt_of_pos ‹Int› h1
      have := Int.emod_nonneg ‹Int› (Int.ne_of_gt h1)
      omega
    · decide
  · decide

/-- std::stoi rejects the empty string and a string that begins with a number
sign. -/
theorem head_of_stoi (r : WString) (v : Int) (h : stoi r = some v) :
    r ≠ [] ∧ r.headD nul ≠ '#' := by
  cases r with
  | nil =>
    have hn : stoi [] = none := by decide
    rw [hn] at h
    cases h
  | cons c t =>
    refine ⟨by simp, ?_⟩
    intro hc
    simp only [List.headD_cons] at hc
    subst hc
    have h3 : iswspace '#' = false := by decide
    have h2 : ¬ digitVal '#' < 10 := by decide
    simp [stoi, skipSpace, splitSign, h3, h2] at h

/-- Every colour that ParseRGBColor returns has its channels below 256. -/
theorem parseRGB_channels (s : WString) (c : Color) (h : ParseRGBColor s = some c) :
    c.r < 256 ∧ c.g < 256 ∧ c.b < 256 := by
  unfold ParseRGBColor at h
  dsimp only at h
  split at h
  · split at h
    · split at h
      · cases h
        exact ⟨byteOfFloat_lt _, byteOfFloat_lt _, byteOfFloat_lt _⟩
      · cases h
    · split at h
      · cases h
        exact ⟨byteOfInt_lt _, byteOfInt_lt _, byteOfInt_lt _⟩
      · cases h
  · cases h
    decide

/-- Every colour that ParseHexColor returns has its channels below 256. -/
theorem parseHex_channels (hex : WString) :
    (ParseHexColor hex).r < 256 ∧ (ParseHexColor hex).g < 256 ∧
      (ParseHexColor hex).b < 256 := by
  unfold ParseHexColor
  dsimp only
  generalize (if hex.headD nul = '#' then substrFrom hex 1 else hex) = cleanHex
  by_cases h1 : cleanHex.length ≠ 6
  · rw [if_pos h1]
    decide
  · rw [if_neg h1]
    by_cases h2 : ¬ cleanHex.all iswxdigit = true
    · rw [if_pos h2]
      decide
    · rw [if_neg h2]
      exact ⟨Nat.mod_lt _ (by decide : 256 > 0), Nat.mod_lt _ (by decide : 256 > 0),
        Nat.mod_lt _ (by decide : 256 > 0)⟩

/-- Every colour that ParseColor returns has its channels below 256. -/
theorem parseColor_channels (s : WString) :
    (ParseColor s).r < 256 ∧ (ParseColor s).g < 256 ∧ (ParseColor s).b < 256 := by
  unfold ParseColor
  by_cases h1 : s = []
  · rw [if_pos h1]
    decide
  · rw [if_neg h1]
    by_cases h2 : s.headD nul = '#'
    · rw [if_pos h2]
      exact parseHex_channels s
    · rw [if_neg h2]
      cases h : ParseRGBColor s with
      | none => decide
      | some c => exact parseRGB_channels s c h

/-- C17. When the first component of a literal r,g,b has no decimal point and
std::stoi reads the three components as the ints ir, ig and ib, ParseColor
stores each reduced modulo 256; components in 0..255 are stored as written; and
every channel of every colour that ParseColor returns is below 256. -/
theorem integer_colour (r g b : WString) (ir ig ib : Int)
    (hr : ',' ∉ r) (hg : ',' ∉ g) (hp : '.' ∉ r)
    (sr : stoi r = some ir) (sg : stoi g = some ig) (sb : stoi b = some ib) :
    ParseColor (r ++ [','] ++ g ++ [','] ++ b)
      = ⟨(ir % 256).toNat, (ig % 256).toNat, (ib % 256).toNat⟩ ∧
    (0 ≤ ir → ir < 256 → 0 ≤ ig → ig < 256 → 0 ≤ ib → ib < 256 →
      ParseColor (r ++ [','] ++ g ++ [','] ++ b) = ⟨ir.toNat, ig.toNat, ib.toNat⟩) ∧
    (∀ s : WString,
      (ParseColor s).r < 256 ∧ (ParseColor s).g < 256 ∧ (ParseColor s).b < 256) := by
  obtain ⟨hne, hhd⟩ := head_of_stoi r ir sr
  have hpt : ¬ ((wfind r '.' 0).isSome = true) := by
    rw [wfind_zero, (indexOfChar_eq_none _ _).mpr hp]
    decide
  have cut := parseRGB_cut r g b hr hg
  rw [if_neg hpt, sr, sg, sb] at cut
  have e1 : r ++ [','] ++ g ++ [','] ++ b ≠ [] := by
    cases r with
    | nil => exact absurd rfl hne
    | cons c t => simp
  have e2 : (r ++ [','] ++ g ++ [','] ++ b).headD nul ≠ '#' := by
    cases r with
    | nil => exact absurd rfl hne
    | cons c t => simpa using hhd
  have main : ParseColor (r ++ [','] ++ g ++ [','] ++ b)
      = ⟨(ir % 256).toNat, (ig % 256).toNat, (ib % 256).toNat⟩ := by
    unfold ParseColor
    rw [if_neg e1, if_neg e2, cut]
    rfl
  refine ⟨main, ?_, parseColor_channels⟩
  intro r0 r1 g0 g1 b0 b1
  rw [main, Int.emod_eq_of_lt r0 r1, Int.emod_eq_of_lt g0 g1, Int.emod_eq_of_lt b0 b1]

/-- Witness of C17: 12,34,56 is stored as written, 300,-1,0 is wrapped to
(44,255,0) and 256,0,0 to (0,0,0). -/
theorem integer_colour_witness :
    ParseColor "12,34,56".toList = ⟨12, 34, 56⟩ ∧
    ParseColor "300,-1,0".toList = ⟨44, 255, 0⟩ ∧
    ParseColor "256,0,0".toList = ⟨0, 0, 0⟩ := by
  have h1 := (integer_colour "12".toList "34".toList "56".toList 12 34 56
    (by decide) (by decide) (by decide) (by decide) (by decide) (by decide)).2.1
    (by decide) (by decide) (by decide) (by decide) (by decide) (by decide)
  have h2 := (integer_colour "300".toList "-1".toList "0".toList 300 (-1) 0
    (by decide) (by decide) (by decide) (by decide) (by decide) (by decide)).1
  have h3 := (integer_colour "256".toList "0".toList "0".toList 256 0 0
    (by decide) (by decide) (by decide) (by decide) (by decide) (by decide)).1
  have e1 : "12".toList ++ [','] ++ "34".toList ++ [','] ++ "56".toList
      = "12,34,56".toList := by decide
  have e2 : "300".toList ++ [','] ++ "-1".toList ++ [','] ++ "0".toList
      = "300,-1,0".toList := by decide
  have e3 : "256".toList ++ [','] ++ "0".toList ++ [','] ++ "0".toList
      = "256,0,0".toList := by decide
  have v2 : (⟨((300 : Int) % 256).toNat, ((-1 : Int) % 256).toNat, ((0 : Int) % 256).toNat⟩
      : Color) = ⟨44, 255, 0⟩ := by decide
  have v3 : (⟨((256 : Int) % 256).toNat, ((0 : Int) % 256).toNat, ((0 : Int) % 256).toNat⟩
      : Color) = ⟨0, 0, 0⟩ := by decide
  rw [e1] at h1
  rw [e2, v2] at h2
  rw [e3, v3] at h3
  exact ⟨h1, h2, h3⟩

/-! ## Position and size of the window -/

/-- Int arithmetic whose exact result fits an int delivers that result. -/
theorem wrapInt_of_range (z : Int) (h0 : -(2 ^ 31) ≤ z) (h1 : z < 2 ^ 31) :
    wrapInt z = z := by
  unfold wrapInt
  rw [Int.emod_eq_of_lt (by omega) (by omega)]
  omega

/-- The cast to int of a float whose integer part fits an int is that integer
part. -/
theorem intOfFloat_of_trunc (x : FloatVal) (i : Int) (h : x.trunc = some i)
    (h0 : -(2 ^ 31) ≤ i) (h1 : i < 2 ^ 31) : intOfFloat x = i := by
  unfold intOfFloat
  rw [h]
  simp only [h0, h1, and_self, if_true]

/-- One call of UpdateWindowPosition, field by field. -/
theorem updateWindowPosition_fields (cfg : Settings) (st : Presentation) (cursorPos : POINT)
    (t : Nat) (textSize : SIZE) :
    (UpdateWindowPosition cfg st cursorPos t textSize).initialPositionSet = true ∧
    (UpdateWindowPosition cfg st cursorPos t textSize).initialCursorPos
      = (if st.initialPositionSet = false then cursorPos else st.initialCursorPos) ∧
    (UpdateWindowPosition cfg st cursorPos t textSize).windowSize
      = ⟨wrapInt (textSize.cx + 40), wrapInt (textSize.cy + 20)⟩ ∧
    (isMoving cfg = false →
      (UpdateWindowPosition cfg st cursorPos t textSize).currentOffsetX = st.currentOffsetX ∧
      (UpdateWindowPosition cfg st cursorPos t textSize).currentOffsetY = st.currentOffsetY) ∧
    (UpdateWindowPosition cfg st cursorPos t textSize).windowPos
      = ⟨wrapInt ((if cfg.followCursor = true then cursorPos
            else if st.initialPositionSet = false then cursorPos
            else st.initialCursorPos).x
          - Int.tdiv textSize.cx 2
          + (if isMoving cfg = true then driftPixels cfg.textVelocity.x t
             else intOfFloat st.currentOffsetX)),
         wrapInt ((if cfg.followCursor = true then cursorPos
            else if st.initialPositionSet = false then cursorPos
            else st.initialCursorPos).y
          - textSize.cy - 20
          + (if isMoving cfg = true then driftPixels cfg.textVelocity.y t
             else intOfFloat st.currentOffsetY))⟩ := by
  have hset : (if st.initialPositionSet = false then true else st.initialPositionSet) = true := by
    cases st.initialPositionSet <;> rfl
  refine ⟨hset, rfl, rfl, ?_, ?_⟩
  · intro hm
    unfold isMoving at hm
    unfold UpdateWindowPosition
    simp only [hm]
    exact ⟨rfl, rfl⟩
  · unfold UpdateWindowPosition isMoving driftPixels
    simp only [hset]
    cases cfg.followCursor <;>
      cases (!cfg.textVelocity.x.isZero || !cfg.textVelocity.y.isZero) <;> simp

/-- Once the first call has captured the cursor, later calls keep the captured
position, and keep the offsets as long as the velocity is zero. -/
theorem updateAll_captured (cfg : Settings) (c0 : POINT) (ox oy : FloatVal)
    (calls : List TickInput) :
    ∀ st : Presentation,
      (st.initialPositionSet = true ∧ st.initialCursorPos = c0 ∧
        (isMoving cfg = false → st.currentOffsetX = ox ∧ st.currentOffsetY = oy)) →
      ((updateAll cfg st calls).initialPositionSet = true ∧
        (updateAll cfg st calls).initialCursorPos = c0 ∧
        (isMoving cfg = false →
          (updateAll cfg st calls).currentOffsetX = ox ∧
          (updateAll cfg st calls).currentOffsetY = oy)) := by
  induction calls with
  | nil => exact fun st h => h
  | cons i is ih =>
    intro st h
    obtain ⟨f1, f2, _, f4, _⟩ :=
      updateWindowPosition_fields cfg st i.cursorPos i.elapsedTimeUpdate i.textSize
    apply ih
    refine ⟨f1, ?_, ?_⟩
    · rw [f2, if_neg (by simp [h.1])]
      exact h.2.1
    · intro hm
      obtain ⟨g1, g2⟩ := f4 hm
      rw [g1, g2]
      exact h.2.2 hm

/-- The calls of a list followed by one more call. -/
theorem updateAll_append (cfg : Settings) (st : Presentation) (pre : List TickInput)
    (last : TickInput) :
    updateAll cfg st (pre ++ [last])
      = UpdateWindowPosition cfg (updateAll cfg st pre) last.cursorPos last.elapsedTimeUpdate
          last.textSize := by
  simp [updateAll, List.foldl_append]

/-- C16, counterexample. With follow, the velocity (15,0), the cursor at
(100,100), a text of size (0,0) and 4200 ms elapsed, the window is placed at
x = 162: the single-precision product 15 * 4.2f is 62.999996, which the cast
truncates to 62, whereas trunc(15 * 4200 / 1000) = 63 gives x = 163. -/
theorem drift_in_single_precision :
    (UpdateWindowPosition slowSettings startState ⟨100, 100⟩ 4200 ⟨0, 0⟩).windowPos
      = ⟨162, 80⟩ ∧
    (100 : Int) - Int.tdiv 0 2 + Int.tdiv (15 * 4200) 1000 = 163 := by
  refine ⟨by decide!, by decide⟩

/-- C16, amended. Run the calls of UpdateWindowPosition of a sequence of ticks
from a state in which no position is captured and the offsets are zero. After
the last call, made with the cursor at c, the elapsed time t and the text size
(w, h), the window is at x = ax - (w div 2) + dx and y = ay - h - 20 + dy (as
int arithmetic), where (ax, ay) is c when follow is true and the cursor of the
first call when follow is false, and (dx, dy) is zero for a zero velocity and
otherwise the cast to int of the single-precision product of each velocity
component with the single-precision quotient t / 1000. Int results and casts
within the int range are exact. -/
theorem draw_position (cfg : Settings) (st0 : Presentation) (pre : List TickInput)
    (last : TickInput) (h0 : st0.initialPositionSet = false)
    (hx : st0.currentOffsetX = FloatVal.zero) (hy : st0.currentOffsetY = FloatVal.zero) :
    (updateAll cfg st0 (pre ++ [last])).windowPos
      = ⟨wrapInt ((if cfg.followCursor = true then last.cursorPos
            else ((pre ++ [last]).headD last).cursorPos).x
          - Int.tdiv last.textSize.cx 2
          + (if isMoving cfg = true then driftPixels cfg.textVelocity.x last.elapsedTimeUpdate
             else 0)),
         wrapInt ((if cfg.followCursor = true then last.cursorPos
            else ((pre ++ [last]).headD last).cursorPos).y
          - last.textSize.cy - 20
          + (if isMoving cfg = true then driftPixels cfg.textVelocity.y last.elapsedTimeUpdate
             else 0))⟩ ∧
    (∀ z : Int, -(2 ^ 31) ≤ z → z < 2 ^ 31 → wrapInt z = z) ∧
    (∀ (x : FloatVal) (i : Int), x.trunc = some i → -(2 ^ 31) ≤ i → i < 2 ^ 31 →
      intOfFloat x = i) := by
  refine ⟨?_, wrapInt_of_range, intOfFloat_of_trunc⟩
  have hz : intOfFloat FloatVal.zero = 0 := by decide
  rw [updateAll_append]
  obtain ⟨_, _, _, _, f5⟩ := updateWindowPosition_fields cfg (updateAll cfg st0 pre)
    last.cursorPos last.elapsedTimeUpdate last.textSize
  rw [f5]
  cases pre with
  | nil =>
    have e : updateAll cfg st0 [] = st0 := rfl
    simp only [e, h0, hx, hy, hz, if_true, List.nil_append, List.headD_cons]
  | cons p ps =>
    have e : updateAll cfg st0 (p :: ps)
        = updateAll cfg (UpdateWindowPosition cfg st0 p.cursorPos p.elapsedTimeUpdate
            p.textSize) ps := rfl
    obtain ⟨g1, g2, _, g4, _⟩ :=
      updateWindowPosition_fields cfg st0 p.cursorPos p.elapsedTimeUpdate p.textSize
    have inv := updateAll_captured cfg p.cursorPos FloatVal.zero FloatVal.zero ps
      (UpdateWindowPosition cfg st0 p.cursorPos p.elapsedTimeUpdate p.textSize)
      ⟨g1, by rw [g2, if_pos h0], fun hm => by
        obtain ⟨k1, k2⟩ := g4 hm
        rw [k1, k2]
        exact ⟨hx, hy⟩⟩
    rw [e]
    simp only [inv.1, inv.2.1, List.cons_append, List.headD_cons]
    cases hf : cfg.followCursor <;> cases hm : isMoving cfg
    · obtain ⟨o1, o2⟩ := inv.2.2 hm
      simp [o1, o2, hz]
    · simp
    · obtain ⟨o1, o2⟩ := inv.2.2 hm
      simp [o1, o2, hz]
    · simp

/-- Witness of the amended C16: without follow, with the velocity (0,-10), a
first tick with the cursor at (100,200) and a tick at 2000 ms with the cursor
at (500,500), for a text of 50 by 16 pixels: the window is at (100 - 25,
200 - 16 - 20 - 20), a drift of -20 pixels vertically and none horizontally
from the captured anchor. -/
theorem draw_position_witness :
    (updateAll driftSettings startState
        ([⟨0, ⟨100, 200⟩, 0, ⟨50, 16⟩⟩] ++ [⟨2000, ⟨500, 500⟩, 2000, ⟨50, 16⟩⟩])).windowPos
      = ⟨75, 144⟩ ∧
    driftPixels driftSettings.textVelocity.x 2000 = 0 ∧
    driftPixels driftSettings.textVelocity.y 2000 = -20 := by
  have h := (draw_position driftSettings startState [⟨0, ⟨100, 200⟩, 0, ⟨50, 16⟩⟩]
    ⟨2000, ⟨500, 500⟩, 2000, ⟨50, 16⟩⟩ rfl rfl rfl).1
  have dx : driftPixels driftSettings.textVelocity.x 2000 = 0 := by decide!
  have dy : driftPixels driftSettings.textVelocity.y 2000 = -20 := by decide!
  refine ⟨?_, dx, dy⟩
  rw [h]
  have hm : isMoving driftSettings = true := by decide
  have hf : driftSettings.followCursor = false := rfl
  simp only [hm, hf, if_true, dx, dy]
  decide

/-- C18, counterexample. For a text of 100 by 20 pixels the window is resized
to 140 by 40, and created with that size: the horizontal padding is 40 pixels
in total, not 20. -/
theorem width_padding_is_forty :
    (UpdateWindowPosition fadeSettings startState ⟨100, 200⟩ 0 ⟨100, 20⟩).windowSize
      = ⟨140, 40⟩ ∧
    (initialPresentation ⟨100, 20⟩ ⟨0, 0⟩).windowSize = ⟨140, 40⟩ ∧
    (⟨140, 40⟩ : SIZE) ≠ ⟨100 + 20, 20 + 20⟩ := by
  refine ⟨by decide, by decide, by decide⟩

/-- C18, amended. On every tick, for the measured text size (w, h), the window
is resized to (w + 40, h + 20), and the window created at start-up has the same
size rule; the sums are int arithmetic, exact within the int range. -/
theorem surface_size (cfg : Settings) (st : Presentation) (inp : TickInput)
    (textSize : SIZE) (createdAt : POINT) :
    (UpdateWindowPosition cfg st inp.cursorPos inp.elapsedTimeUpdate inp.textSize).windowSize
      = ⟨wrapInt (inp.textSize.cx + 40), wrapInt (inp.textSize.cy + 20)⟩ ∧
    (∀ st2, WindowProcTimer cfg st inp = .running st2 →
      st2.windowSize = ⟨wrapInt (inp.textSize.cx + 40), wrapInt (inp.textSize.cy + 20)⟩) ∧
    (initialPresentation textSize createdAt).windowSize
      = ⟨wrapInt (textSize.cx + 40), wrapInt (textSize.cy + 20)⟩ ∧
    (∀ z : Int, -(2 ^ 31) ≤ z → z < 2 ^ 31 → wrapInt z = z) := by
  refine ⟨rfl, ?_, rfl, wrapInt_of_range⟩
  intro st2 h
  unfold WindowProcTimer at h
  split at h
  · split at h
    · cases h
    · split at h
      · cases h
      · split at h
        · cases h
        · cases h
          rfl
  · cases h
    rfl


end CursorPops
